import Mathlib

/-
Verification development for the `senere` sensor-network package
(modules `senere/topology.py`, `senere/routing.py`, `senere/network.py`,
`senere/simulation.py`).

Modelling conventions:
* Python dicts are insertion-ordered association lists `List (Nat × α)`;
  `dlookup` is `d[k]` (returning `none` where Python raises `KeyError`),
  `dupdate` is `d[k] = v` (overwrite in place, append when the key is new),
  `ddelete` is `del d[k]`.
* Node positions and radio ranges enter the routing code only through the
  comparison `distance_between(a, b) <= min(a.radio_range, b.radio_range)`
  inside `Topology.neighbours`.  That float comparison is modelled by an
  abstract boolean field `near` of the topology; every theorem below holds
  for an arbitrary `near` (the adjacency lists are symmetric by
  construction, because one evaluation of the comparison drives both of the
  paired `append` calls).
* `np.inf` distances are `(⊤ : WithTop Nat)`; route-record distances live in
  `WithTop Nat` because the dynamic builder can manipulate infinite values.
* Loops whose termination is not structural take an explicit fuel argument;
  exhausted fuel and Python exceptions are distinguished (`BuildError`).
  `build_static_routes` genuinely diverges on some inputs, so fuel is not a
  modelling artefact there.
* The static builder additionally returns the list of every node address
  ever pushed on its `visiting` queue (a ghost log used to state the
  "no node is enqueued more than once" property); the route output is
  unchanged by the instrumentation.
-/

/-- The node-type constants `SENSOR_NODE = 'sensor'` and
`GATEWAY_NODE = 'gateway'` of `senere/topology.py`; `other` stands for any
further string a `Node.type` field may hold. -/
inductive NodeType where
  | sensor
  | gateway
  | other
deriving DecidableEq

/-- `topology.Node`, restricted to the fields the routing code reads
(`address` and `type`); position and range are absorbed into
`Topology.near`. -/
structure Node where
  address : Nat
  type : NodeType
deriving DecidableEq

/-- `topology.Topology`: `nodes` is the value list of the `_nodes` dict
(insertion order, distinct addresses), `connections` the item list of the
`_connections` dict (keyed by the `from` address, so distinct first
components), and `near` the radio-range comparison used by
`Topology.neighbours` (see the header comment). -/
structure Topology where
  nodes : List Node
  connections : List (Nat × Nat)
  near : Node → Node → Bool

/-- Dict invariants every Python `Topology` satisfies: `_nodes` is keyed by
address and `_connections` by the `from` address. -/
def Topology.WF (t : Topology) : Prop :=
  (t.nodes.map Node.address).Nodup ∧ (t.connections.map Prod.fst).Nodup

/-- `routing.RouteRecord` (a namedtuple).  `gateway` is an `Option` because
the dynamic builder stores `gw_map` values that start as `None`; `distance`
is `WithTop Nat` because the dynamic builder computes `np.inf + 1`. -/
structure RouteRecord where
  source : Nat
  next_hop : Nat
  gateway : Option Nat
  distance : WithTop Nat
  static : Bool
deriving DecidableEq

/-- Outcomes of a route build that Python surfaces as exceptions, plus fuel
exhaustion (which marks genuine divergence of the modelled loop). -/
inductive BuildError where
  | keyError
  | valueError
  | outOfFuel
deriving DecidableEq

/-! ### Insertion-ordered dictionaries -/

def dlookup {α : Type} : List (Nat × α) → Nat → Option α
  | [], _ => none
  | p :: rest, k => if p.1 = k then some p.2 else dlookup rest k

def dupdate {α : Type} : List (Nat × α) → Nat → α → List (Nat × α)
  | [], k, v => [(k, v)]
  | p :: rest, k, v => if p.1 = k then (k, v) :: rest else p :: dupdate rest k v

def ddelete {α : Type} (m : List (Nat × α)) (k : Nat) : List (Nat × α) :=
  m.filter (fun p => p.1 ≠ k)

def dkeys {α : Type} (m : List (Nat × α)) : List Nat := m.map Prod.fst

theorem dlookup_append {α : Type} (m m' : List (Nat × α)) (k : Nat) :
    dlookup (m ++ m') k = ((dlookup m k).orElse fun _ => dlookup m' k) := by
  induction m with
  | nil => simp [dlookup, Option.orElse]
  | cons p rest ih =>
      by_cases h : p.1 = k <;> simp [dlookup, h, ih, Option.orElse]

theorem dlookup_dupdate {α : Type} (m : List (Nat × α)) (k k' : Nat) (v : α) :
    dlookup (dupdate m k v) k' = if k' = k then some v else dlookup m k' := by
  induction m with
  | nil =>
      by_cases hk : k' = k
      · subst hk; simp [dupdate, dlookup]
      · simp only [dupdate, dlookup]
        rw [if_neg (fun h => hk h.symm), if_neg hk]
  | cons p rest ih =>
      by_cases hp : p.1 = k
      · simp only [dupdate, if_pos hp, dlookup]
        by_cases hk : k' = k
        · subst hk; simp
        · rw [if_neg (fun h => hk h.symm), if_neg hk,
            if_neg (fun h : p.1 = k' => hk ((hp ▸ h : k = k')).symm)]
      · simp only [dupdate, if_neg hp, dlookup]
        by_cases hpk' : p.1 = k'
        · rw [if_pos hpk', if_pos hpk',
            if_neg (fun h : k' = k => hp (hpk'.symm ▸ h ▸ rfl))]
        · rw [if_neg hpk', if_neg hpk', ih]

theorem dlookup_mem {α : Type} {m : List (Nat × α)} {k : Nat} {v : α}
    (h : dlookup m k = some v) : (k, v) ∈ m := by
  induction m with
  | nil => simp [dlookup] at h
  | cons p rest ih =>
      by_cases hp : p.1 = k
      · simp [dlookup, hp] at h
        cases p
        simp_all
      · simp [dlookup, hp] at h
        exact List.mem_cons_of_mem _ (ih h)

/-! ### The static route builder (`routing.build_static_routes`) -/

/-- `topology.nodes.values(['address', 'type'])` with the excluded addresses
filtered out (`routing.py` lines 13–16). -/
def filteredNodes (t : Topology) (ex : List Nat) : List Node :=
  t.nodes.filter (fun n => !ex.contains n.address)

def nodeAddrs (t : Topology) : List Nat := t.nodes.map Node.address

/-- Addresses of the non-excluded nodes; the key set of the `precursors` and
`gateway_dict` dictionaries. -/
def filteredAddrs (t : Topology) (ex : List Nat) : List Nat :=
  (filteredNodes t ex).map Node.address

/-- The gateway addresses among a node list (`routing.py` line 17). -/
def gatewayAddrs (nodes : List Node) : List Nat :=
  (nodes.filter (fun n => n.type == NodeType.gateway)).map Node.address

/-- The value of `precursors[a]` after the construction loop of
`routing.py` lines 21–25: the `from` addresses of all connections into `a`
whose two endpoints are not excluded (kept in connection order). -/
def precursorsOf (t : Topology) (ex : List Nat) (a : Nat) : List Nat :=
  (t.connections.filter
    (fun c => !ex.contains c.1 && !ex.contains c.2 && c.2 == a)).map Prod.fst

/-- The construction loop of `precursors` raises `KeyError` unless every
connection with two non-excluded endpoints targets a non-excluded node
address. -/
def precursorsOk (t : Topology) (ex : List Nat) : Bool :=
  t.connections.all
    (fun c => ex.contains c.1 || ex.contains c.2 ||
      (filteredAddrs t ex).contains c.2)

/-- The initial `gateway_dict` (`routing.py` lines 28–31). -/
def initGwDict (nodes : List Node) : List (Nat × Option Nat) :=
  nodes.map (fun n =>
    (n.address, if n.type == NodeType.gateway then some n.address else none))

/-- The `while visiting:` loop of `routing.py` lines 39–49.  Queue entries
are `(curr_node, next_hop, dist)`.  The extra `log` accumulator records
every address pushed on the queue (ghost instrumentation; it influences
nothing). -/
def staticLoop (t : Topology) (ex : List Nat) :
    Nat → List (Nat × Option Nat) → List (Nat × Nat × Nat) →
    List RouteRecord → List Nat →
    Except BuildError (List RouteRecord × List Nat)
  | _, _, [], routes, log => .ok (routes, log)
  | 0, _, _ :: _, _, _ => .error .outOfFuel
  | fuel + 1, gwDict, (cur, nh, d) :: rest, routes, log =>
    match dlookup gwDict nh with
    | none => .error .keyError
    | some gw =>
      let routes' := routes ++ [⟨cur, nh, gw, (d : WithTop Nat), true⟩]
      if (filteredAddrs t ex).contains cur then
        let ps := precursorsOf t ex cur
        staticLoop t ex fuel (dupdate gwDict cur gw)
          (rest ++ ps.map (fun p => (p, cur, d + 1))) routes' (log ++ ps)
      else .error .keyError

/-- `routing.build_static_routes(topology, exclude)` together with its ghost
enqueue log.  The seed queue holds `(gw, gw, 0)` for every non-excluded
gateway (`routing.py` line 38). -/
def build_static_routes_log (t : Topology) (ex : List Nat) (fuel : Nat) :
    Except BuildError (List RouteRecord × List Nat) :=
  if precursorsOk t ex then
    staticLoop t ex fuel (initGwDict (filteredNodes t ex))
      ((gatewayAddrs (filteredNodes t ex)).map (fun g => (g, g, 0)))
      [] (gatewayAddrs (filteredNodes t ex))
  else .error .keyError

/-- `routing.build_static_routes(topology, exclude)` (routes only). -/
def build_static_routes (t : Topology) (ex : List Nat) (fuel : Nat) :
    Except BuildError (List RouteRecord) :=
  (build_static_routes_log t ex fuel).map Prod.fst

/-! ### Properties of the static loop -/

theorem contains_iff_mem (l : List Nat) (a : Nat) :
    l.contains a = true ↔ a ∈ l := by
  induction l with
  | nil => simp
  | cons x xs ih => simp [List.contains]

theorem mem_dupdate {α : Type} {m : List (Nat × α)} {k : Nat} {v : α} :
    ∀ p ∈ dupdate m k v, p ∈ m ∨ p = (k, v) := by
  induction m with
  | nil => intro p hp; simp [dupdate] at hp; right; exact hp
  | cons q rest ih =>
      intro p hp
      by_cases hq : q.1 = k
      · simp [dupdate, hq] at hp
        rcases hp with h | h
        · right; simp [h]
        · left; exact List.mem_cons_of_mem _ h
      · simp [dupdate, hq] at hp
        rcases hp with h | h
        · left; simp [h]
        · rcases ih p h with h' | h'
          · left; exact List.mem_cons_of_mem _ h'
          · right; exact h'

theorem precursorsOf_not_excluded {t : Topology} {ex : List Nat} {a p : Nat}
    (hp : p ∈ precursorsOf t ex a) : p ∉ ex := by
  simp only [precursorsOf, List.mem_map, List.mem_filter] at hp
  obtain ⟨c, ⟨_, hc⟩, rfl⟩ := hp
  simp only [Bool.and_eq_true, Bool.not_eq_true'] at hc
  intro hmem
  have hmem' := (contains_iff_mem ex c.1).mpr hmem
  rw [hc.1.1] at hmem'
  exact absurd hmem' (by simp)

/-- "No dangling hops": a record either is a self-record or its `next_hop`
also owns a record, at distance one less. -/
def recordNoDangling (rs : List RouteRecord) (r : RouteRecord) : Prop :=
  r.next_hop = r.source ∨
    ∃ r' ∈ rs, r'.source = r.next_hop ∧ r.distance = r'.distance + 1

/-- No field of the record mentions an excluded address. -/
def recordRespectsExclude (ex : List Nat) (r : RouteRecord) : Prop :=
  r.source ∉ ex ∧ r.next_hop ∉ ex ∧ ∀ v, r.gateway = some v → v ∉ ex

theorem recordNoDangling_mono {rs rs' : List RouteRecord} {r : RouteRecord}
    (hsub : ∀ x ∈ rs, x ∈ rs') (h : recordNoDangling rs r) :
    recordNoDangling rs' r := by
  rcases h with h | ⟨r', hr', h1, h2⟩
  · exact Or.inl h
  · exact Or.inr ⟨r', hsub r' hr', h1, h2⟩

theorem staticLoop_routes_mono (t : Topology) (ex : List Nat) :
    ∀ (fuel : Nat) (gwDict : List (Nat × Option Nat))
      (queue : List (Nat × Nat × Nat)) (routes : List RouteRecord)
      (log : List Nat) (rs : List RouteRecord) (log' : List Nat),
      staticLoop t ex fuel gwDict queue routes log = .ok (rs, log') →
      ∀ r ∈ routes, r ∈ rs := by
  intro fuel
  induction fuel with
  | zero =>
      intro gwDict queue routes log rs log' h
      cases queue with
      | nil => simp [staticLoop] at h; intro r hr; rw [← h.1]; exact hr
      | cons e rest => simp [staticLoop] at h
  | succ n ih =>
      intro gwDict queue routes log rs log' h
      cases queue with
      | nil => simp [staticLoop] at h; intro r hr; rw [← h.1]; exact hr
      | cons e rest =>
          obtain ⟨cur, nh, d⟩ := e
          simp only [staticLoop] at h
          cases hgw : dlookup gwDict nh with
          | none => rw [hgw] at h; exact absurd h (by simp)
          | some gw =>
              rw [hgw] at h
              simp only at h
              by_cases hdom : (filteredAddrs t ex).contains cur
              · rw [if_pos hdom] at h
                intro r hr
                exact ih _ _ _ _ _ _ h r (List.mem_append_left _ hr)
              · rw [if_neg hdom] at h; exact absurd h (by simp)

theorem staticLoop_inv (t : Topology) (ex : List Nat) :
    ∀ (fuel : Nat) (gwDict : List (Nat × Option Nat))
      (queue : List (Nat × Nat × Nat)) (routes : List RouteRecord)
      (log : List Nat) (rs : List RouteRecord) (log' : List Nat),
      staticLoop t ex fuel gwDict queue routes log = .ok (rs, log') →
      (∀ e ∈ queue, e.1 ∉ ex ∧ e.2.1 ∉ ex ∧
        (e.2.1 = e.1 ∨ ∃ r' ∈ routes, r'.source = e.2.1 ∧
          ((e.2.2 : Nat) : WithTop Nat) = r'.distance + 1)) →
      (∀ p ∈ gwDict, ∀ v, p.2 = some v → v ∉ ex) →
      (∀ r ∈ routes, recordRespectsExclude ex r ∧ recordNoDangling routes r) →
      ∀ r ∈ rs, recordRespectsExclude ex r ∧ recordNoDangling rs r := by
  intro fuel
  induction fuel with
  | zero =>
      intro gwDict queue routes log rs log' h hq hgwd hrt
      cases queue with
      | nil =>
          simp [staticLoop] at h
          intro r hr
          rw [← h.1] at hr ⊢
          exact hrt r hr
      | cons e rest => simp [staticLoop] at h
  | succ n ih =>
      intro gwDict queue routes log rs log' h hq hgwd hrt
      cases queue with
      | nil =>
          simp [staticLoop] at h
          intro r hr
          rw [← h.1] at hr ⊢
          exact hrt r hr
      | cons e rest =>
          obtain ⟨cur, nh, d⟩ := e
          simp only [staticLoop] at h
          cases hgw : dlookup gwDict nh with
          | none => rw [hgw] at h; exact absurd h (by simp)
          | some gw =>
              rw [hgw] at h
              simp only at h
              by_cases hdom : (filteredAddrs t ex).contains cur
              · rw [if_pos hdom] at h
                obtain ⟨hcur_ex, hnh_ex, hdisj⟩ := hq _ (List.mem_cons_self _ _)
                have hgw_ok : ∀ v, gw = some v → v ∉ ex :=
                  hgwd _ (dlookup_mem hgw)
                set rnew : RouteRecord := ⟨cur, nh, gw, (d : WithTop Nat), true⟩ with hrnew
                have hmono : ∀ r ∈ routes, r ∈ routes ++ [rnew] :=
                  fun r hr => List.mem_append_left _ hr
                refine ih _ _ _ _ _ _ h ?_ ?_ ?_
                · intro e' he'
                  rcases List.mem_append.mp he' with he' | he'
                  · obtain ⟨h1, h2, h3⟩ := hq e' (List.mem_cons_of_mem _ he')
                    refine ⟨h1, h2, ?_⟩
                    rcases h3 with h3 | ⟨r', hr', ha, hb⟩
                    · exact Or.inl h3
                    · exact Or.inr ⟨r', hmono r' hr', ha, hb⟩
                  · simp only [List.mem_map] at he'
                    obtain ⟨p, hp, rfl⟩ := he'
                    refine ⟨precursorsOf_not_excluded hp, hcur_ex, Or.inr ?_⟩
                    refine ⟨rnew, List.mem_append_right _ (by simp), rfl, ?_⟩
                    simp only [hrnew]
                    push_cast
                    rfl
                · intro p hp v hv
                  rcases mem_dupdate p hp with hp' | hp'
                  · exact hgwd p hp' v hv
                  · subst hp'
                    exact hgw_ok v hv
                · intro r hr
                  rcases List.mem_append.mp hr with hr | hr
                  · obtain ⟨h1, h2⟩ := hrt r hr
                    exact ⟨h1, recordNoDangling_mono hmono h2⟩
                  · simp only [List.mem_singleton] at hr
                    subst hr
                    refine ⟨⟨hcur_ex, hnh_ex, hgw_ok⟩, ?_⟩
                    rcases hdisj with hself | ⟨r', hr', ha, hb⟩
                    · exact Or.inl hself
                    · exact Or.inr ⟨r', hmono r' hr', ha, hb⟩
              · rw [if_neg hdom] at h; exact absurd h (by simp)

theorem staticLoop_seeds (t : Topology) (ex : List Nat) :
    ∀ (seeds : List Nat) (fuel : Nat) (gwDict : List (Nat × Option Nat))
      (queue : List (Nat × Nat × Nat)) (routes : List RouteRecord)
      (log : List Nat) (rs : List RouteRecord) (log' : List Nat),
      staticLoop t ex fuel gwDict
        ((seeds.map fun g => (g, g, 0)) ++ queue) routes log = .ok (rs, log') →
      seeds.Nodup →
      (∀ g ∈ seeds, dlookup gwDict g = some (some g)) →
      ∀ g ∈ seeds,
        (⟨g, g, some g, (0 : WithTop Nat), true⟩ : RouteRecord) ∈ rs := by
  intro seeds
  induction seeds with
  | nil => intro _ _ _ _ _ _ _ _ _ _ g hg; simp at hg
  | cons g0 gs ih =>
      intro fuel gwDict queue routes log rs log' h hnd hdict g hg
      cases fuel with
      | zero => simp [staticLoop] at h
      | succ n =>
          simp only [List.map_cons, List.cons_append, staticLoop] at h
          rw [hdict g0 (List.mem_cons_self _ _)] at h
          simp only at h
          by_cases hdom : (filteredAddrs t ex).contains g0
          · rw [if_pos hdom] at h
            simp only [List.append_eq, List.append_assoc] at h
            have hrec := h
            have hdict' : ∀ g' ∈ gs, dlookup (dupdate gwDict g0 (some g0)) g'
                = some (some g') := by
              intro g' hg'
              rw [dlookup_dupdate]
              have hne : g' ≠ g0 := by
                intro hEq
                subst hEq
                exact (List.nodup_cons.mp hnd).1 hg'
              rw [if_neg hne]
              exact hdict g' (List.mem_cons_of_mem _ hg')
            rcases List.mem_cons.mp hg with rfl | hg'
            · refine staticLoop_routes_mono t ex _ _ _ _ _ _ _ hrec _ ?_
              refine List.mem_append_right _ ?_
              simp
            · exact ih _ _ _ _ _ _ _ hrec (List.nodup_cons.mp hnd).2 hdict' g hg'
          · rw [if_neg hdom] at h; exact absurd h (by simp)

/-! ### Divergence of the static builder on a gateway cycle (claim C5) -/

/-- A single gateway with a fixed connection to itself: the smallest
topology on which the `while visiting:` loop never empties its queue. -/
def gwSelfLoopTop : Topology :=
  ⟨[⟨1, NodeType.gateway⟩], [(1, 1)], fun _ _ => false⟩

theorem staticLoop_selfLoop_diverges :
    ∀ (fuel d : Nat) (gwDict : List (Nat × Option Nat))
      (routes : List RouteRecord) (log : List Nat),
      dlookup gwDict 1 = some (some 1) →
      staticLoop gwSelfLoopTop [] fuel gwDict [(1, 1, d)] routes log =
        .error .outOfFuel := by
  intro fuel
  induction fuel with
  | zero => intro d gwDict routes log h; simp [staticLoop]
  | succ n ih =>
      intro d gwDict routes log h
      simp only [staticLoop]
      rw [h]
      simp only
      rw [if_pos (by decide : (filteredAddrs gwSelfLoopTop []).contains 1 = true)]
      rw [show precursorsOf gwSelfLoopTop [] 1 = [1] from by decide]
      simp only [List.map, List.nil_append]
      exact ih (d + 1) _ _ _ (by rw [dlookup_dupdate]; simp)

theorem selfLoop_build_diverges (fuel : Nat) :
    build_static_routes gwSelfLoopTop [] fuel = .error .outOfFuel := by
  unfold build_static_routes build_static_routes_log
  rw [show precursorsOk gwSelfLoopTop [] = true from by decide]
  simp only [if_true]
  rw [show gatewayAddrs (filteredNodes gwSelfLoopTop []) = [1] from by decide,
      show initGwDict (filteredNodes gwSelfLoopTop []) = [(1, some 1)] from by decide]
  simp only [List.map]
  rw [staticLoop_selfLoop_diverges fuel 0 [(1, some 1)] [] [1] (by decide)]
  rfl

/-- The unique fixed connection leaving `p` (the `_connections` dict is
keyed by the `from` address), restricted to connections with two
non-excluded endpoints — exactly the edges the `precursors` dictionary of
`build_static_routes` inverts. -/
def effTarget (t : Topology) (ex : List Nat) (p : Nat) : Option Nat :=
  (dlookup t.connections p).bind
    (fun q => if !ex.contains p && !ex.contains q then some q else none)

/-- The forward connection chain of a node reaches a (non-excluded)
gateway. -/
inductive ChainsToGw (t : Topology) (ex : List Nat) : Nat → Prop where
  | gw : ∀ g, g ∈ gatewayAddrs (filteredNodes t ex) → ChainsToGw t ex g
  | step : ∀ p q, effTarget t ex p = some q → ChainsToGw t ex q →
      ChainsToGw t ex p

theorem dlookup_eq_of_mem_nodup {α : Type} {m : List (Nat × α)}
    (hnd : (m.map Prod.fst).Nodup) {k : Nat} {v : α} (hmem : (k, v) ∈ m) :
    dlookup m k = some v := by
  induction m with
  | nil => simp at hmem
  | cons p rest ih =>
      rcases List.mem_cons.mp hmem with rfl | hmem'
      · simp [dlookup]
      · have hp : p.1 ≠ k := by
          intro hEq
          have : k ∈ rest.map Prod.fst := List.mem_map.mpr ⟨(k, v), hmem', rfl⟩
          rw [List.map_cons] at hnd
          exact (List.nodup_cons.mp hnd).1 (hEq ▸ this)
        simp only [dlookup, if_neg hp]
        exact ih (List.nodup_cons.mp (List.map_cons _ _ _ ▸ hnd)).2 hmem'

theorem mem_precursorsOf_iff_effTarget {t : Topology} {ex : List Nat}
    (hnd : (t.connections.map Prod.fst).Nodup) (p a : Nat) :
    p ∈ precursorsOf t ex a ↔ effTarget t ex p = some a := by
  constructor
  · intro hp
    simp only [precursorsOf, List.mem_map, List.mem_filter] at hp
    obtain ⟨c, ⟨hcmem, hc⟩, rfl⟩ := hp
    simp only [Bool.and_eq_true, Bool.not_eq_true', beq_iff_eq] at hc
    obtain ⟨⟨h1, h2⟩, h3⟩ := hc
    have hl : dlookup t.connections c.1 = some c.2 :=
      dlookup_eq_of_mem_nodup hnd (show (c.1, c.2) ∈ t.connections by
        simpa using hcmem)
    rw [effTarget, hl, Option.some_bind, if_pos (by rw [h1, h2]; rfl), h3]
  · intro hp
    rw [effTarget] at hp
    cases hl : dlookup t.connections p with
    | none => rw [hl] at hp; simp at hp
    | some q =>
        rw [hl, Option.some_bind] at hp
        by_cases hcond : (!ex.contains p && !ex.contains q) = true
        · rw [if_pos hcond] at hp
          simp only [Option.some.injEq] at hp
          subst hp
          simp only [Bool.and_eq_true, Bool.not_eq_true'] at hcond
          simp only [precursorsOf, List.mem_map, List.mem_filter]
          refine ⟨(p, q), ⟨dlookup_mem hl, ?_⟩, rfl⟩
          rw [hcond.1, hcond.2]
          simp
        · rw [if_neg hcond] at hp; simp at hp

theorem effTarget_mem_fromKeys {t : Topology} {ex : List Nat} {p q : Nat}
    (h : effTarget t ex p = some q) : p ∈ t.connections.map Prod.fst := by
  rw [effTarget] at h
  cases hl : dlookup t.connections p with
  | none => rw [hl] at h; simp at h
  | some q' => exact List.mem_map.mpr ⟨(p, q'), dlookup_mem hl, rfl⟩

theorem mem_filteredAddrs_iff {t : Topology} {ex : List Nat} {a : Nat} :
    a ∈ filteredAddrs t ex ↔ a ∈ nodeAddrs t ∧ a ∉ ex := by
  unfold filteredAddrs filteredNodes nodeAddrs
  rw [List.mem_map]
  constructor
  · rintro ⟨n, hn, rfl⟩
    rw [List.mem_filter] at hn
    refine ⟨List.mem_map.mpr ⟨n, hn.1, rfl⟩, fun hmem => ?_⟩
    have hc := (contains_iff_mem ex n.address).mpr hmem
    have h2 := hn.2
    rw [hc] at h2
    simp at h2
  · rintro ⟨hmem, hnex⟩
    obtain ⟨n, hn, rfl⟩ := List.mem_map.mp hmem
    refine ⟨n, List.mem_filter.mpr ⟨hn, ?_⟩, rfl⟩
    cases hc : ex.contains n.address with
    | false => simp
    | true => exact absurd ((contains_iff_mem _ _).mp hc) hnex

theorem gatewayAddrs_filtered_sub {t : Topology} {ex : List Nat} {g : Nat}
    (h : g ∈ gatewayAddrs (filteredNodes t ex)) : g ∈ gatewayAddrs t.nodes := by
  simp only [gatewayAddrs, filteredNodes, List.mem_map, List.mem_filter] at h ⊢
  obtain ⟨n, ⟨⟨hn, _⟩, ht⟩, rfl⟩ := h
  exact ⟨n, ⟨hn, ht⟩, rfl⟩

theorem gatewayAddrs_filtered_nodup {t : Topology} (ex : List Nat)
    (hwf : (t.nodes.map Node.address).Nodup) :
    (gatewayAddrs (filteredNodes t ex)).Nodup := by
  have h2 : List.Sublist
      ((filteredNodes t ex).filter (fun n => n.type == NodeType.gateway))
      t.nodes :=
    (List.filter_sublist _).trans (List.filter_sublist _)
  exact (h2.map Node.address).nodup hwf

theorem precursorsOf_nodup {t : Topology} (ex : List Nat) (a : Nat)
    (hnd : (t.connections.map Prod.fst).Nodup) :
    (precursorsOf t ex a).Nodup := by
  have h : List.Sublist
      ((t.connections.filter
        (fun c => !ex.contains c.1 && !ex.contains c.2 && c.2 == a)).map
          Prod.fst)
      (t.connections.map Prod.fst) := (List.filter_sublist _).map _
  exact h.nodup hnd

theorem initGwDict_lookup_of_mem {nodes : List Node} {a : Nat}
    (h : a ∈ nodes.map Node.address) :
    ∃ w, dlookup (initGwDict nodes) a = some w := by
  induction nodes with
  | nil => simp at h
  | cons n rest ih =>
      by_cases hn : n.address = a
      · subst hn
        refine ⟨if n.type == NodeType.gateway then some n.address else none, ?_⟩
        simp [initGwDict, dlookup]
      · simp only [List.map_cons, List.mem_cons] at h
        rcases h with h | h
        · exact absurd h.symm hn
        · obtain ⟨w, hw⟩ := ih h
          exact ⟨w, by simpa [initGwDict, dlookup, hn] using hw⟩

theorem nodup_length_le_of_mem_union {l A F : List Nat}
    (hnd : l.Nodup) (h : ∀ p ∈ l, p ∈ A ∨ p ∈ F) :
    l.length ≤ A.length + F.length := by
  have hsub : l ⊆ A ++ F := fun p hp => List.mem_append.mpr (h p hp)
  have h1 : l.toFinset.card = l.length := List.toFinset_card_of_nodup hnd
  have h2 : l.toFinset ⊆ (A ++ F).toFinset := by
    intro x hx
    rw [List.mem_toFinset] at hx ⊢
    exact hsub hx
  have h3 := Finset.card_le_card h2
  have h4 := List.toFinset_card_le (A ++ F)
  rw [h1] at h3
  have := le_trans h3 h4
  simpa using this

theorem staticLoop_terminates (t : Topology) (ex : List Nat)
    (hwf : t.WF)
    (hclosed : ∀ c ∈ t.connections, c.1 ∈ nodeAddrs t ∧ c.2 ∈ nodeAddrs t)
    (hnogw : ∀ c ∈ t.connections, c.1 ∉ gatewayAddrs t.nodes) :
    ∀ (fuel : Nat) (processed : List Nat) (gwDict : List (Nat × Option Nat))
      (queue : List (Nat × Nat × Nat)) (routes : List RouteRecord)
      (log : List Nat),
      log = processed ++ queue.map (fun e => e.1) →
      log.Nodup →
      (∀ p ∈ log, p ∈ gatewayAddrs (filteredNodes t ex) ∨
        ∃ q ∈ processed, effTarget t ex p = some q) →
      (∀ p ∈ log, ChainsToGw t ex p) →
      (∀ e ∈ queue, e.1 ∈ filteredAddrs t ex ∧
        ∃ w, dlookup gwDict e.2.1 = some w) →
      (∀ r ∈ routes, ChainsToGw t ex r.source) →
      (gatewayAddrs t.nodes).length + (t.connections.map Prod.fst).length + 1
        ≤ fuel + processed.length →
      ∃ rs log',
        staticLoop t ex fuel gwDict queue routes log = .ok (rs, log') ∧
        log'.Nodup ∧ ∀ r ∈ rs, ChainsToGw t ex r.source := by
  have hnogw' : ∀ p, p ∈ t.connections.map Prod.fst →
      p ∉ gatewayAddrs t.nodes := by
    intro p hp
    obtain ⟨c, hc, rfl⟩ := List.mem_map.mp hp
    exact hnogw c hc
  intro fuel
  induction fuel with
  | zero =>
      intro processed gwDict queue routes log hlog hnd hl3 hl4 hq hr hbound
      cases queue with
      | nil =>
          refine ⟨routes, log, by simp [staticLoop], hnd, hr⟩
      | cons e rest =>
          exfalso
          have hloglen : log.length ≤ (gatewayAddrs t.nodes).length +
              (t.connections.map Prod.fst).length := by
            refine nodup_length_le_of_mem_union hnd ?_
            intro p hp
            rcases hl3 p hp with h | ⟨q, _, heff⟩
            · exact Or.inl (gatewayAddrs_filtered_sub h)
            · exact Or.inr (effTarget_mem_fromKeys heff)
          have : log.length = processed.length + (1 + rest.length) := by
            rw [hlog]
            simp [List.length_append]
            omega
          omega
  | succ n ih =>
      intro processed gwDict queue routes log hlog hnd hl3 hl4 hq hr hbound
      cases queue with
      | nil =>
          refine ⟨routes, log, by simp [staticLoop], hnd, hr⟩
      | cons e rest =>
          obtain ⟨cur, nh, d⟩ := e
          obtain ⟨hcur_dom, w, hw⟩ := hq _ (List.mem_cons_self _ _)
          have hcur_log : cur ∈ log := by
            rw [hlog]
            exact List.mem_append_right _ (by simp)
          simp only [staticLoop]
          rw [hw]
          simp only
          rw [if_pos ((contains_iff_mem _ _).mpr hcur_dom)]
          set ps := precursorsOf t ex cur with hps
          have hps_target : ∀ p ∈ ps, effTarget t ex p = some cur := by
            intro p hp
            exact (mem_precursorsOf_iff_effTarget hwf.2 p cur).mp hp
          have hps_nodup : ps.Nodup := precursorsOf_nodup ex cur hwf.2
          have hps_fresh : ∀ p ∈ ps, p ∉ log := by
            intro p hp hplog
            rcases hl3 p hplog with h | ⟨q, hqproc, heff⟩
            · exact hnogw' p (effTarget_mem_fromKeys (hps_target p hp))
                (gatewayAddrs_filtered_sub h)
            · have : q = cur := by
                have h' := (hps_target p hp).symm.trans heff
                simpa using h'.symm
              subst this
              have hnd' := hnd
              rw [hlog] at hnd'
              have hdisj := (List.nodup_append.mp hnd').2.2
              exact hdisj hqproc (by simp)
          have hmapps : List.map (fun (e : Nat × Nat × Nat) => e.1)
              (ps.map (fun p => (p, cur, d + 1))) = ps := by
            induction ps with
            | nil => rfl
            | cons a as iha => simpa using iha
          have hlog' : log ++ ps =
              (processed ++ [cur]) ++
                ((rest ++ ps.map (fun p => (p, cur, d + 1))).map
                  (fun e => e.1)) := by
            rw [hlog, List.map_append, hmapps, List.map_cons]
            simp
          have hnd'' : (log ++ ps).Nodup := by
            rw [List.nodup_append]
            exact ⟨hnd, hps_nodup, fun a ha hb => hps_fresh a hb ha⟩
          refine ih (processed ++ [cur]) (dupdate gwDict cur w)
            (rest ++ ps.map (fun p => (p, cur, d + 1)))
            (routes ++ [⟨cur, nh, w, (d : WithTop Nat), true⟩])
            (log ++ ps) hlog' hnd'' ?_ ?_ ?_ ?_ ?_
          · intro p hp
            rcases List.mem_append.mp hp with hp | hp
            · rcases hl3 p hp with h | ⟨q, hqp, heff⟩
              · exact Or.inl h
              · exact Or.inr ⟨q, List.mem_append_left _ hqp, heff⟩
            · exact Or.inr ⟨cur, List.mem_append_right _ (by simp),
                hps_target p hp⟩
          · intro p hp
            rcases List.mem_append.mp hp with hp | hp
            · exact hl4 p hp
            · exact ChainsToGw.step p cur (hps_target p hp) (hl4 cur hcur_log)
          · intro e' he'
            rcases List.mem_append.mp he' with he' | he'
            · obtain ⟨h1, w', hw'⟩ := hq e' (List.mem_cons_of_mem _ he')
              refine ⟨h1, ?_⟩
              rw [dlookup_dupdate]
              by_cases hEq : e'.2.1 = cur
              · exact ⟨w, by rw [if_pos hEq]⟩
              · exact ⟨w', by rw [if_neg hEq]; exact hw'⟩
            · obtain ⟨p, hp, rfl⟩ := List.mem_map.mp he'
              constructor
              · have hkeys := effTarget_mem_fromKeys (hps_target p hp)
                obtain ⟨c, hc, rfl⟩ := List.mem_map.mp hkeys
                exact mem_filteredAddrs_iff.mpr
                  ⟨(hclosed c hc).1, precursorsOf_not_excluded hp⟩
              · exact ⟨w, by rw [dlookup_dupdate, if_pos rfl]⟩
          · intro r hr'
            rcases List.mem_append.mp hr' with hr' | hr'
            · exact hr r hr'
            · simp only [List.mem_singleton] at hr'
              subst hr'
              exact hl4 cur hcur_log
          · simp only [List.length_append, List.length_singleton]
            omega

theorem seeds_map_fst (l : List Nat) :
    (l.map (fun g => (g, g, (0 : Nat)))).map
      (fun (e : Nat × Nat × Nat) => e.1) = l := by
  induction l with
  | nil => rfl
  | cons a as iha => simpa using iha

theorem gatewayAddrs_sub_addrs {nodes : List Node} :
    ∀ g ∈ gatewayAddrs nodes, g ∈ nodes.map Node.address := by
  intro g hg
  simp only [gatewayAddrs, List.mem_map, List.mem_filter] at hg
  obtain ⟨n, ⟨hn, _⟩, rfl⟩ := hg
  exact List.mem_map.mpr ⟨n, hn, rfl⟩

theorem precursorsOk_of_closed (t : Topology) (ex : List Nat)
    (hclosed : ∀ c ∈ t.connections, c.2 ∈ nodeAddrs t) :
    precursorsOk t ex = true := by
  unfold precursorsOk
  rw [List.all_eq_true]
  intro c hc
  cases h1 : ex.contains c.1 with
  | true => simp
  | false =>
      cases h2 : ex.contains c.2 with
      | true => simp
      | false =>
          have hmem : c.2 ∈ filteredAddrs t ex := mem_filteredAddrs_iff.mpr
            ⟨hclosed c hc, fun hm => by
              have hx := (contains_iff_mem ex c.2).mpr hm
              rw [h2] at hx
              exact absurd hx (by simp)⟩
          simp only [(contains_iff_mem _ _).mpr hmem, Bool.or_true]

/-- The repo's own cycle test topology (`test_static_routing_ignores_cycles`):
gateway 1, sensors 2 and 5 wired to it, sensors 3 and 4 wired in a mutual
cycle that never reaches the gateway. -/
def cycTop : Topology :=
  ⟨[⟨1, NodeType.gateway⟩, ⟨2, NodeType.sensor⟩, ⟨3, NodeType.sensor⟩,
    ⟨4, NodeType.sensor⟩, ⟨5, NodeType.sensor⟩],
   [(2, 1), (5, 1), (3, 4), (4, 3)], fun _ _ => false⟩

/-- C5 (counterexample): the claim asserts `build_static_routes` terminates
for every topology whose connections may contain cycles.  On the topology
with a single gateway whose fixed connection is a self-loop, the
`while visiting:` loop re-enqueues the gateway forever: no amount of fuel
makes the build return. -/
theorem c5_counterexample :
    ¬ ∃ (fuel : Nat) (rs : List RouteRecord),
        build_static_routes gwSelfLoopTop [] fuel = .ok rs := by
  rintro ⟨fuel, rs, h⟩
  rw [selfLoop_build_diverges fuel] at h
  exact absurd h (by simp)

/-- C5 (amended): for every topology whose connection endpoints are node
addresses and in which no gateway has an outgoing fixed connection (cycles
among sensors remain allowed), `build_static_routes` terminates, no node is
ever enqueued twice (the ghost enqueue log is duplicate-free), and every
emitted record belongs to a node whose connection chain reaches a gateway —
so cycle-bound nodes are absent from the result. -/
theorem c5_static_termination_amended (t : Topology) (ex : List Nat)
    (hwf : t.WF)
    (hclosed : ∀ c ∈ t.connections, c.1 ∈ nodeAddrs t ∧ c.2 ∈ nodeAddrs t)
    (hnogw : ∀ c ∈ t.connections, c.1 ∉ gatewayAddrs t.nodes) :
    ∃ fuel rs log, build_static_routes_log t ex fuel = .ok (rs, log) ∧
      log.Nodup ∧ ∀ r ∈ rs, ChainsToGw t ex r.source := by
  refine ⟨(gatewayAddrs t.nodes).length +
    (t.connections.map Prod.fst).length + 1, ?_⟩
  unfold build_static_routes_log
  rw [precursorsOk_of_closed t ex (fun c hc => (hclosed c hc).2)]
  simp only [if_true]
  obtain ⟨rs, log', hok, hnd, hch⟩ :=
    staticLoop_terminates t ex hwf hclosed hnogw
      ((gatewayAddrs t.nodes).length + (t.connections.map Prod.fst).length + 1)
      [] (initGwDict (filteredNodes t ex))
      ((gatewayAddrs (filteredNodes t ex)).map (fun g => (g, g, 0)))
      [] (gatewayAddrs (filteredNodes t ex))
      (by rw [seeds_map_fst]; simp)
      (gatewayAddrs_filtered_nodup ex hwf.1)
      (fun p hp => Or.inl hp)
      (fun p hp => ChainsToGw.gw p hp)
      (by
        intro e he
        obtain ⟨g, hg, rfl⟩ := List.mem_map.mp he
        exact ⟨gatewayAddrs_sub_addrs g hg,
          initGwDict_lookup_of_mem (gatewayAddrs_sub_addrs g hg)⟩)
      (by intro r hr; simp at hr)
      (by simp)
  exact ⟨rs, log', hok, hnd, hch⟩

/-- Witness for the amended C5 on the repo's cycle test topology. -/
theorem c5_static_termination_amended_witness :
    ∃ fuel rs log, build_static_routes_log cycTop [] fuel = .ok (rs, log) ∧
      log.Nodup ∧ ∀ r ∈ rs, ChainsToGw cycTop [] r.source :=
  c5_static_termination_amended cycTop [] ⟨by decide, by decide⟩
    (by decide) (by decide)

/-! ### The neighbourhood graph (`topology.Topology.neighbours`) -/

/-- `neighbours[a].append(b)` — appends to the entry keyed `a` in place. -/
def appendAdj : List (Nat × List Nat) → Nat → Nat → List (Nat × List Nat)
  | [], _, _ => []
  | p :: rest, a, b =>
      if p.1 = a then (p.1, p.2 ++ [b]) :: rest else p :: appendAdj rest a b

/-- Inner loop of `Topology.neighbours`: pair node `a` with every later
node `b`; when within radio range, append each to the other's list. -/
def neighPairs (t : Topology) (a : Node) :
    List Node → List (Nat × List Nat) → List (Nat × List Nat)
  | [], m => m
  | b :: bs, m =>
      neighPairs t a bs
        (if t.near a b then
          appendAdj (appendAdj m a.address b.address) b.address a.address
        else m)

/-- Outer loop of `Topology.neighbours`. -/
def neighLoop (t : Topology) :
    List Node → List (Nat × List Nat) → List (Nat × List Nat)
  | [], m => m
  | a :: rest, m => neighLoop t rest (neighPairs t a rest m)

/-- `topology.Topology.neighbours()`: adjacency lists over all nodes. -/
def neighbours (t : Topology) : List (Nat × List Nat) :=
  neighLoop t t.nodes (t.nodes.map (fun n => (n.address, ([] : List Nat))))

/-! ### The dynamic route builder (`routing.build_routes`) -/

/-- `neighbourhood[node_b].remove(node_a)` for each `node_b` adjacent to the
excluded `node_a` (`routing.py` lines 70–72). -/
def removeFromAll (a : Nat) :
    List Nat → List (Nat × List Nat) →
    Except BuildError (List (Nat × List Nat))
  | [], m => .ok m
  | b :: bs, m =>
      match dlookup m b with
      | none => .error .keyError
      | some lb =>
          if a ∈ lb then removeFromAll a bs (dupdate m b (lb.erase a))
          else .error .valueError

/-- The exclusion pruning loop of `routing.py` lines 70–73: remove each
excluded address from its neighbours' lists and delete its own entry. -/
def pruneNeigh :
    List Nat → List (Nat × List Nat) →
    Except BuildError (List (Nat × List Nat))
  | [], m => .ok m
  | a :: rest, m =>
      match dlookup m a with
      | none => .error .keyError
      | some l =>
          match removeFromAll a l m with
          | .error e => .error e
          | .ok m' => pruneNeigh rest (ddelete m' a)

/-- The three node marks (`NOT_VISITED`, `QUEUED`, `VISITED`) of
`routing.py` lines 55–57. -/
inductive Mark where
  | notVisited
  | queued
  | visited
deriving DecidableEq

/-- The neighbour loop inside the gateway seeding phase (`routing.py`
lines 89–92): enqueue each not-yet-visited neighbour. -/
def seedScan :
    List Nat → List (Nat × Mark) → List Nat →
    Except BuildError (List (Nat × Mark) × List Nat)
  | [], mark, queue => .ok (mark, queue)
  | v :: vs, mark, queue =>
      match dlookup mark v with
      | none => .error .keyError
      | some Mark.notVisited =>
          seedScan vs (dupdate mark v Mark.queued) (queue ++ [v])
      | some _ => seedScan vs mark queue

/-- The gateway seeding phase (`routing.py` lines 87–95): emit the static
self-record of every gateway, queue its unvisited neighbours, and mark it
visited with distance 0. -/
def seedGateways (adj : List (Nat × List Nat)) :
    List Nat → List (Nat × Mark) → List (Nat × WithTop Nat) →
    List (Nat × Option Nat) → List Nat → List RouteRecord →
    Except BuildError
      (List (Nat × Mark) × List (Nat × WithTop Nat) ×
        List (Nat × Option Nat) × List Nat × List RouteRecord)
  | [], mark, dist, gwMap, queue, routes =>
      .ok (mark, dist, gwMap, queue, routes)
  | g :: gs, mark, dist, gwMap, queue, routes =>
      let routes' := routes ++ [⟨g, g, some g, (0 : WithTop Nat), true⟩]
      match dlookup adj g with
      | none => .error .keyError
      | some nbrs =>
          match seedScan nbrs mark queue with
          | .error e => .error e
          | .ok (mark', queue') =>
              seedGateways adj gs (dupdate mark' g Mark.visited)
                (dupdate dist g 0) (dupdate gwMap g (some g)) queue' routes'

/-- The neighbour scan of one dequeued node (`routing.py` lines 102–108):
enqueue not-visited neighbours; among the others keep the one with the
least known distance as `next_hop` (the first candidate is taken without a
distance comparison, mirroring the short-circuit
`next_hop is None or distance[v] < distance[next_hop]`). -/
def scanNeighbours (dist : List (Nat × WithTop Nat)) :
    List Nat → List (Nat × Mark) → List Nat → Option Nat →
    Except BuildError (List (Nat × Mark) × List Nat × Option Nat)
  | [], mark, queue, nh => .ok (mark, queue, nh)
  | v :: vs, mark, queue, nh =>
      match dlookup mark v with
      | none => .error .keyError
      | some Mark.notVisited =>
          scanNeighbours dist vs (dupdate mark v Mark.queued) (queue ++ [v]) nh
      | some _ =>
          match nh with
          | none => scanNeighbours dist vs mark queue (some v)
          | some cur =>
              match dlookup dist v, dlookup dist cur with
              | some dv, some dc =>
                  scanNeighbours dist vs mark queue
                    (if dv < dc then some v else some cur)
              | _, _ => .error .keyError

/-- The `while queue:` loop of `routing.py` lines 99–115. -/
def dynLoop (adj : List (Nat × List Nat)) :
    Nat → List (Nat × Mark) → List (Nat × WithTop Nat) →
    List (Nat × Option Nat) → List Nat → List RouteRecord →
    Except BuildError (List RouteRecord)
  | _, _, _, _, [], routes => .ok routes
  | 0, _, _, _, _ :: _, _ => .error .outOfFuel
  | fuel + 1, mark, dist, gwMap, node :: qrest, routes =>
      match dlookup adj node with
      | none => .error .keyError
      | some nbrs =>
          match scanNeighbours dist nbrs mark qrest none with
          | .error e => .error e
          | .ok (mark', queue', nh) =>
              match nh with
              | none =>
                  dynLoop adj fuel (dupdate mark' node Mark.visited) dist
                    gwMap queue' routes
              | some h =>
                  match dlookup dist h, dlookup gwMap h with
                  | some dh, some gw =>
                      dynLoop adj fuel (dupdate mark' node Mark.visited)
                        (dupdate dist node (dh + 1)) (dupdate gwMap node gw)
                        queue'
                        (routes ++ [⟨node, h, gw, dh + 1, false⟩])
                  | _, _ => .error .keyError

/-- `routing.build_routes(topology, exclude)` — the dynamic (radio-range)
route builder, `routing.py` lines 54–116. -/
def build_routes (t : Topology) (ex : List Nat) (fuel : Nat) :
    Except BuildError (List RouteRecord) :=
  match pruneNeigh ex (neighbours t) with
  | .error e => .error e
  | .ok adj =>
      let nodes := filteredNodes t ex
      match seedGateways adj (gatewayAddrs nodes)
        (nodes.map (fun n =>
          (n.address,
            if n.type == NodeType.sensor then Mark.notVisited
            else Mark.queued)))
        (nodes.map (fun n => (n.address, (⊤ : WithTop Nat))))
        (nodes.map (fun n => (n.address, (none : Option Nat))))
        [] [] with
      | .error e => .error e
      | .ok (mark1, dist1, gwMap1, queue1, routes1) =>
          dynLoop adj fuel mark1 dist1 gwMap1 queue1 routes1

/-! ### Adjacency-list infrastructure for the dynamic builder -/

/-- The neighbour list of `a` (empty when `a` is not a key). -/
def adjList (m : List (Nat × List Nat)) (a : Nat) : List Nat :=
  (dlookup m a).getD []

theorem dlookup_ddelete {α : Type} (m : List (Nat × α)) (k x : Nat) :
    dlookup (ddelete m k) x = if x = k then none else dlookup m x := by
  induction m with
  | nil => by_cases h : x = k <;> simp [ddelete, dlookup, h]
  | cons p rest ih =>
      unfold ddelete at ih ⊢
      by_cases hpk : p.1 = k
      · rw [List.filter_cons_of_neg (by simp [hpk]), ih]
        by_cases hx : x = k
        · simp [hx]
        · rw [if_neg hx, if_neg hx]
          have hpx : ¬ p.1 = x := fun h => hx (by rw [← h]; exact hpk)
          simp only [dlookup, if_neg hpx]
      · rw [List.filter_cons_of_pos (by simp [hpk])]
        simp only [dlookup]
        by_cases hpx : p.1 = x
        · rw [if_pos hpx, if_pos hpx,
            if_neg (fun hxk : x = k => hpk (by rw [hpx, hxk]))]
        · rw [if_neg hpx, if_neg hpx, ih]

theorem adjList_dupdate (m : List (Nat × List Nat)) (k x : Nat)
    (v : List Nat) :
    adjList (dupdate m k v) x = if x = k then v else adjList m x := by
  unfold adjList
  rw [dlookup_dupdate]
  by_cases h : x = k <;> simp [h]

theorem adjList_ddelete (m : List (Nat × List Nat)) (k x : Nat) :
    adjList (ddelete m k) x = if x = k then [] else adjList m x := by
  unfold adjList
  rw [dlookup_ddelete]
  by_cases h : x = k <;> simp [h]

theorem dlookup_appendAdj (m : List (Nat × List Nat)) (a b x : Nat) :
    dlookup (appendAdj m a b) x =
      if x = a then (dlookup m a).map (fun l => l ++ [b])
      else dlookup m x := by
  induction m with
  | nil => by_cases h : x = a <;> simp [appendAdj, dlookup, h]
  | cons p rest ih =>
      by_cases hpa : p.1 = a
      · simp only [appendAdj, if_pos hpa, dlookup]
        by_cases hpx : p.1 = x
        · have hxa : x = a := by rw [← hpx, hpa]
          rw [if_pos hpx, if_pos hxa]
          simp
        · have hxa : ¬ x = a := fun h => hpx (by rw [hpa, h])
          rw [if_neg hpx, if_neg hxa, if_neg hpx]
      · simp only [appendAdj, if_neg hpa, dlookup]
        by_cases hpx : p.1 = x
        · have hxa : ¬ x = a := fun h => hpa (by rw [hpx, h])
          rw [if_pos hpx, if_neg hxa, if_pos hpx]
        · rw [if_neg hpx, ih]
          by_cases hxa : x = a
          · rw [if_pos hxa, if_pos hxa]
          · rw [if_neg hxa, if_neg hxa, if_neg hpx]

theorem dkeys_appendAdj (m : List (Nat × List Nat)) (a b : Nat) :
    dkeys (appendAdj m a b) = dkeys m := by
  induction m with
  | nil => rfl
  | cons p rest ih =>
      by_cases h : p.1 = a
      · simp [appendAdj, h, dkeys]
      · simp only [appendAdj, if_neg h, dkeys, List.map_cons]
        rw [show List.map Prod.fst (appendAdj rest a b) =
          List.map Prod.fst rest from ih]

theorem dkeys_dupdate_of_mem {α : Type} (m : List (Nat × α)) (k : Nat)
    (v : α) (h : k ∈ dkeys m) : dkeys (dupdate m k v) = dkeys m := by
  induction m with
  | nil => simp [dkeys] at h
  | cons p rest ih =>
      by_cases hp : p.1 = k
      · simp [dkeys, dupdate, hp]
      · simp only [dkeys, List.map_cons, List.mem_cons] at h
        rcases h with h | h
        · exact absurd h.symm hp
        · simp only [dupdate, if_neg hp, dkeys, List.map_cons]
          rw [show List.map Prod.fst (dupdate rest k v) =
            List.map Prod.fst rest from ih h]

theorem mem_dkeys_iff_lookup {α : Type} (m : List (Nat × α)) (a : Nat) :
    a ∈ dkeys m ↔ ∃ v, dlookup m a = some v := by
  induction m with
  | nil => simp [dkeys, dlookup]
  | cons p rest ih =>
      by_cases hp : p.1 = a
      · simp [dkeys, dlookup, hp]
      · simp only [dkeys, List.map_cons, List.mem_cons, dlookup, if_neg hp]
        rw [dkeys] at ih
        rw [ih]
        constructor
        · rintro (h | h)
          · exact absurd h.symm hp
          · exact h
        · exact Or.inr

theorem adjList_appendAdj_of_key (m : List (Nat × List Nat)) (a b x : Nat)
    (h : a ∈ dkeys m) :
    adjList (appendAdj m a b) x =
      if x = a then adjList m a ++ [b] else adjList m x := by
  obtain ⟨l, hl⟩ := (mem_dkeys_iff_lookup m a).mp h
  unfold adjList
  rw [dlookup_appendAdj]
  by_cases hx : x = a <;> simp [hx, hl]

/-- Count-level symmetry of an adjacency map: `y` occurs in `x`'s list as
often as `x` occurs in `y`'s.  `Topology.neighbours` establishes it because
one `near` evaluation drives both paired appends. -/
def CntSym (m : List (Nat × List Nat)) : Prop :=
  ∀ x y, List.count y (adjList m x) = List.count x (adjList m y)

/-- Adjacency lists only mention keys of the map. -/
def AdjSub (m : List (Nat × List Nat)) : Prop :=
  ∀ x y, y ∈ adjList m x → y ∈ dkeys m

theorem adjList_eq_of_lookup {m : List (Nat × List Nat)} {a : Nat}
    {l : List Nat} (h : dlookup m a = some l) : adjList m a = l := by
  unfold adjList
  rw [h]
  rfl

theorem pairStep_inv (m : List (Nat × List Nat)) (A B : Nat)
    (hA : A ∈ dkeys m) (hB : B ∈ dkeys m) (hAB : A ≠ B)
    (hsym : CntSym m) (hsub : AdjSub m) :
    CntSym (appendAdj (appendAdj m A B) B A) ∧
    AdjSub (appendAdj (appendAdj m A B) B A) ∧
    dkeys (appendAdj (appendAdj m A B) B A) = dkeys m := by
  have hkeys1 : dkeys (appendAdj m A B) = dkeys m := dkeys_appendAdj m A B
  have hkeys2 : dkeys (appendAdj (appendAdj m A B) B A) = dkeys m := by
    rw [dkeys_appendAdj, hkeys1]
  have hB1 : B ∈ dkeys (appendAdj m A B) := by rw [hkeys1]; exact hB
  have hadj : ∀ x, adjList (appendAdj (appendAdj m A B) B A) x =
      if x = B then adjList m B ++ [A]
      else if x = A then adjList m A ++ [B]
      else adjList m x := by
    intro x
    rw [adjList_appendAdj_of_key _ B A x hB1]
    by_cases hxB : x = B
    · rw [if_pos hxB, if_pos hxB,
        adjList_appendAdj_of_key m A B B hA,
        if_neg (fun h : B = A => hAB h.symm)]
    · rw [if_neg hxB, if_neg hxB, adjList_appendAdj_of_key m A B x hA]
  refine ⟨?_, ?_, hkeys2⟩
  · intro x y
    rw [hadj x, hadj y]
    have e0 := hsym x y
    have e1 := hsym A B
    have e2 := hsym x B
    have e3 := hsym x A
    have e4 := hsym B y
    have e5 := hsym A y
    by_cases hxB : x = B <;> by_cases hxA : x = A <;>
      by_cases hyB : y = B <;> by_cases hyA : y = A <;>
        simp_all [List.count_append, List.count_cons, List.count_nil]
  · intro x y hy
    rw [hkeys2]
    rw [hadj x] at hy
    by_cases hxB : x = B
    · rw [if_pos hxB] at hy
      rcases List.mem_append.mp hy with hy | hy
      · exact hsub B y hy
      · simp only [List.mem_singleton] at hy
        subst hy
        exact hA
    · rw [if_neg hxB] at hy
      by_cases hxA : x = A
      · rw [if_pos hxA] at hy
        rcases List.mem_append.mp hy with hy | hy
        · exact hsub A y hy
        · simp only [List.mem_singleton] at hy
          subst hy
          exact hB
      · rw [if_neg hxA] at hy
        exact hsub x y hy

theorem neighPairs_inv (t : Topology) (a : Node) :
    ∀ (bs : List Node) (m : List (Nat × List Nat)),
      CntSym m → AdjSub m → dkeys m = nodeAddrs t →
      a ∈ t.nodes → (∀ b ∈ bs, b ∈ t.nodes) →
      (∀ b ∈ bs, b.address ≠ a.address) →
      CntSym (neighPairs t a bs m) ∧ AdjSub (neighPairs t a bs m) ∧
        dkeys (neighPairs t a bs m) = nodeAddrs t := by
  intro bs
  induction bs with
  | nil => intro m h1 h2 h3 _ _ _; exact ⟨h1, h2, h3⟩
  | cons b rest ih =>
      intro m h1 h2 h3 ha hb hne
      simp only [neighPairs]
      by_cases hnear : t.near a b
      · rw [if_pos hnear]
        have hA : a.address ∈ dkeys m := by
          rw [h3]
          exact List.mem_map.mpr ⟨a, ha, rfl⟩
        have hB : b.address ∈ dkeys m := by
          rw [h3]
          exact List.mem_map.mpr ⟨b, hb b (List.mem_cons_self _ _), rfl⟩
        obtain ⟨p1, p2, p3⟩ := pairStep_inv m a.address b.address hA hB
          (fun h => hne b (List.mem_cons_self _ _) h.symm) h1 h2
        exact ih _ p1 p2 (p3.trans h3) ha
          (fun b' hb' => hb b' (List.mem_cons_of_mem _ hb'))
          (fun b' hb' => hne b' (List.mem_cons_of_mem _ hb'))
      · rw [if_neg hnear]
        exact ih _ h1 h2 h3 ha
          (fun b' hb' => hb b' (List.mem_cons_of_mem _ hb'))
          (fun b' hb' => hne b' (List.mem_cons_of_mem _ hb'))

theorem neighLoop_inv (t : Topology) :
    ∀ (work : List Node) (m : List (Nat × List Nat)),
      CntSym m → AdjSub m → dkeys m = nodeAddrs t →
      (∀ n ∈ work, n ∈ t.nodes) → (work.map Node.address).Nodup →
      CntSym (neighLoop t work m) ∧ AdjSub (neighLoop t work m) ∧
        dkeys (neighLoop t work m) = nodeAddrs t := by
  intro work
  induction work with
  | nil => intro m h1 h2 h3 _ _; exact ⟨h1, h2, h3⟩
  | cons a rest ih =>
      intro m h1 h2 h3 hw hnd
      simp only [neighLoop]
      rw [List.map_cons, List.nodup_cons] at hnd
      obtain ⟨p1, p2, p3⟩ := neighPairs_inv t a rest m h1 h2 h3
        (hw a (List.mem_cons_self _ _))
        (fun b hb => hw b (List.mem_cons_of_mem _ hb))
        (fun b hb hEq =>
          hnd.1 (List.mem_map.mpr ⟨b, hb, hEq⟩))
      exact ih _ p1 p2 p3
        (fun b hb => hw b (List.mem_cons_of_mem _ hb)) hnd.2

theorem neighbours_inv (t : Topology)
    (hwf : (t.nodes.map Node.address).Nodup) :
    CntSym (neighbours t) ∧ AdjSub (neighbours t) ∧
      dkeys (neighbours t) = nodeAddrs t := by
  unfold neighbours
  refine neighLoop_inv t t.nodes _ ?_ ?_ ?_ (fun _ h => h) hwf
  · intro x y
    have h : ∀ z, adjList
        (t.nodes.map (fun n => (n.address, ([] : List Nat)))) z = [] := by
      intro z
      unfold adjList
      cases hl : dlookup (t.nodes.map
          (fun n => (n.address, ([] : List Nat)))) z with
      | none => rfl
      | some l =>
          have hm := dlookup_mem hl
          simp only [List.mem_map] at hm
          obtain ⟨n, _, hn⟩ := hm
          cases hn
          rfl
    rw [h x, h y]
    simp
  · intro x y hy
    unfold adjList at hy
    cases hl : dlookup (t.nodes.map (fun n => (n.address, ([] : List Nat)))) x with
    | none => rw [hl] at hy; simp at hy
    | some l =>
        rw [hl] at hy
        have := dlookup_mem hl
        simp only [List.mem_map] at this
        obtain ⟨n, _, hn⟩ := this
        cases hn
        simp at hy
  · unfold dkeys
    rw [List.map_map]
    rfl

theorem count_cons_ite (z w : Nat) (l : List Nat) :
    List.count z (w :: l) = List.count z l + (if z = w then 1 else 0) := by
  rw [List.count_cons]
  by_cases h : z = w
  · simp [h]
  · simp [h]
    omega

theorem removeFromAll_spec (a : Nat) :
    ∀ (bs : List Nat) (m m' : List (Nat × List Nat)),
      removeFromAll a bs m = .ok m' →
      (∀ x y, List.count y (adjList m' x) =
        List.count y (adjList m x) -
          (if y = a then List.count x bs else 0)) ∧
      dkeys m' = dkeys m := by
  intro bs
  induction bs with
  | nil =>
      intro m m' h
      simp only [removeFromAll] at h
      cases h
      refine ⟨fun x y => ?_, rfl⟩
      by_cases hy : y = a <;> simp [hy]
  | cons b rest ih =>
      intro m m' h
      simp only [removeFromAll] at h
      cases hl : dlookup m b with
      | none => rw [hl] at h; exact absurd h (by simp)
      | some lb =>
          rw [hl] at h
          simp only at h
          by_cases hmem : a ∈ lb
          · rw [if_pos hmem] at h
            obtain ⟨ihc, ihk⟩ := ih _ _ h
            have hupd : ∀ x, adjList (dupdate m b (lb.erase a)) x =
                if x = b then lb.erase a else adjList m x :=
              fun x => adjList_dupdate m b x (lb.erase a)
            have hadjb : adjList m b = lb := adjList_eq_of_lookup hl
            constructor
            · intro x y
              rw [ihc x y, hupd x]
              by_cases hy : y = a
              · rw [if_pos hy, if_pos hy, count_cons_ite]
                by_cases hx : x = b
                · rw [if_pos hx, if_pos hx, hy, List.count_erase_self]
                  have hpos : 0 < List.count a lb :=
                    List.count_pos_iff.mpr hmem
                  rw [hx, hadjb]
                  omega
                · rw [if_neg hx, if_neg hx]
                  omega
              · rw [if_neg hy, if_neg hy]
                by_cases hx : x = b
                · rw [if_pos hx, List.count_erase_of_ne hy lb, hx, hadjb]
                · rw [if_neg hx]
            · rw [ihk]
              exact dkeys_dupdate_of_mem m b (lb.erase a)
                ((mem_dkeys_iff_lookup m b).mpr ⟨lb, hl⟩)
          · rw [if_neg hmem] at h
            exact absurd h (by simp)

theorem mem_dkeys_ddelete {α : Type} (m : List (Nat × α)) (k x : Nat) :
    x ∈ dkeys (ddelete m k) ↔ x ∈ dkeys m ∧ x ≠ k := by
  rw [mem_dkeys_iff_lookup, mem_dkeys_iff_lookup]
  constructor
  · rintro ⟨v, hv⟩
    rw [dlookup_ddelete] at hv
    by_cases hx : x = k
    · rw [if_pos hx] at hv; exact absurd hv (by simp)
    · rw [if_neg hx] at hv; exact ⟨⟨v, hv⟩, hx⟩
  · rintro ⟨⟨v, hv⟩, hx⟩
    exact ⟨v, by rw [dlookup_ddelete, if_neg hx]; exact hv⟩

theorem pruneNeigh_inv :
    ∀ (ex : List Nat) (m m' : List (Nat × List Nat)),
      pruneNeigh ex m = .ok m' →
      CntSym m → AdjSub m →
      CntSym m' ∧ AdjSub m' ∧
      (∀ k, k ∈ dkeys m' → k ∈ dkeys m ∧ k ∉ ex) := by
  intro ex
  induction ex with
  | nil =>
      intro m m' h hsym hsub
      simp only [pruneNeigh] at h
      cases h
      exact ⟨hsym, hsub, fun k hk => ⟨hk, by simp⟩⟩
  | cons a rest ih =>
      intro m m' h hsym hsub
      simp only [pruneNeigh] at h
      cases hl : dlookup m a with
      | none => rw [hl] at h; exact absurd h (by simp)
      | some l =>
          rw [hl] at h
          simp only at h
          cases hrem : removeFromAll a l m with
          | error e => rw [hrem] at h; exact absurd h (by simp)
          | ok m2 =>
              rw [hrem] at h
              simp only at h
              obtain ⟨hcnt, hk2⟩ := removeFromAll_spec a l m m2 hrem
              have hadja : adjList m a = l := adjList_eq_of_lookup hl
              have hadj3 : ∀ x, adjList (ddelete m2 a) x =
                  if x = a then [] else adjList m2 x :=
                fun x => adjList_ddelete m2 a x
              have hzero : ∀ x, List.count a (adjList m2 x) = 0 := by
                intro x
                rw [hcnt x a, if_pos rfl, ← hadja, hsym x a]
                exact Nat.sub_self _
              have hsym3 : CntSym (ddelete m2 a) := by
                intro x y
                rw [hadj3 x, hadj3 y]
                by_cases hx : x = a
                · rw [if_pos hx, hx]
                  by_cases hy : y = a
                  · rw [if_pos hy, hy]
                  · rw [if_neg hy]
                    simp [hzero y]
                · rw [if_neg hx]
                  by_cases hy : y = a
                  · rw [if_pos hy, hy]
                    simp [hzero x]
                  · rw [if_neg hy, hcnt x y, hcnt y x,
                      if_neg hy, if_neg hx]
                    have e := hsym x y
                    omega
              have hsub3 : AdjSub (ddelete m2 a) := by
                intro x y hy
                rw [hadj3 x] at hy
                by_cases hx : x = a
                · rw [if_pos hx] at hy; simp at hy
                · rw [if_neg hx] at hy
                  have hyne : y ≠ a := by
                    intro hEq
                    have hp := List.count_pos_iff.mpr hy
                    rw [hEq, hzero x] at hp
                    exact absurd hp (by simp)
                  have hym : y ∈ adjList m x := by
                    have hp := List.count_pos_iff.mpr hy
                    have hle : List.count y (adjList m2 x) ≤
                        List.count y (adjList m x) := by
                      rw [hcnt x y]
                      exact Nat.sub_le _ _
                    exact List.count_pos_iff.mp (lt_of_lt_of_le hp hle)
                  rw [mem_dkeys_ddelete, hk2]
                  exact ⟨hsub x y hym, hyne⟩
              obtain ⟨q1, q2, q3⟩ := ih _ _ h hsym3 hsub3
              refine ⟨q1, q2, fun k hk => ?_⟩
              obtain ⟨hk3, hkrest⟩ := q3 k hk
              rw [mem_dkeys_ddelete, hk2] at hk3
              refine ⟨hk3.1, ?_⟩
              intro hmem
              rcases List.mem_cons.mp hmem with rfl | hmem
              · exact hk3.2 rfl
              · exact hkrest hmem

/-! ### Invariants of the dynamic builder -/

theorem seedScan_spec :
    ∀ (l : List Nat) (mark : List (Nat × Mark)) (queue : List Nat)
      (mark' : List (Nat × Mark)) (queue' : List Nat),
      seedScan l mark queue = .ok (mark', queue') →
      (∃ news, queue' = queue ++ news ∧ ∀ v ∈ news, v ∈ l) ∧
      (∀ b, dlookup mark b = some Mark.visited →
        dlookup mark' b = some Mark.visited) := by
  intro l
  induction l with
  | nil =>
      intro mark queue mark' queue' h
      simp only [seedScan] at h
      cases h
      exact ⟨⟨[], by simp⟩, fun b hb => hb⟩
  | cons v vs ih =>
      intro mark queue mark' queue' h
      simp only [seedScan] at h
      cases hmv : dlookup mark v with
      | none => rw [hmv] at h; exact absurd h (by simp)
      | some mv =>
          rw [hmv] at h
          cases mv with
          | notVisited =>
              simp only at h
              obtain ⟨⟨news, hq, hn⟩, hpres⟩ := ih _ _ _ _ h
              refine ⟨⟨v :: news, by simpa using hq, ?_⟩, ?_⟩
              · intro x hx
                rcases List.mem_cons.mp hx with rfl | hx
                · exact List.mem_cons_self _ _
                · exact List.mem_cons_of_mem _ (hn x hx)
              · intro b hb
                refine hpres b ?_
                rw [dlookup_dupdate]
                have hbv : ¬ b = v := by
                  intro hEq
                  rw [hEq, hmv] at hb
                  exact absurd hb (by simp)
                rw [if_neg hbv]
                exact hb
          | queued =>
              simp only at h
              obtain ⟨⟨news, hq, hn⟩, hpres⟩ := ih _ _ _ _ h
              exact ⟨⟨news, hq, fun x hx =>
                List.mem_cons_of_mem _ (hn x hx)⟩, hpres⟩
          | visited =>
              simp only at h
              obtain ⟨⟨news, hq, hn⟩, hpres⟩ := ih _ _ _ _ h
              exact ⟨⟨news, hq, fun x hx =>
                List.mem_cons_of_mem _ (hn x hx)⟩, hpres⟩

theorem scanNeighbours_spec (dist : List (Nat × WithTop Nat)) :
    ∀ (l : List Nat) (mark : List (Nat × Mark)) (queue : List Nat)
      (nh : Option Nat) (mark' : List (Nat × Mark)) (queue' : List Nat)
      (nh' : Option Nat),
      scanNeighbours dist l mark queue nh = .ok (mark', queue', nh') →
      (∃ news, queue' = queue ++ news ∧ ∀ v ∈ news, v ∈ l) ∧
      (∀ b, dlookup mark b = some Mark.visited →
        dlookup mark' b = some Mark.visited) ∧
      (∀ h, nh' = some h → h ∈ l ∨ nh = some h) := by
  intro l
  induction l with
  | nil =>
      intro mark queue nh mark' queue' nh' h
      simp only [scanNeighbours] at h
      cases h
      exact ⟨⟨[], by simp⟩, fun b hb => hb, fun h hh => Or.inr hh⟩
  | cons v vs ih =>
      intro mark queue nh mark' queue' nh' h
      simp only [scanNeighbours] at h
      cases hmv : dlookup mark v with
      | none => rw [hmv] at h; exact absurd h (by simp)
      | some mv =>
          rw [hmv] at h
          cases mv with
          | notVisited =>
              simp only at h
              obtain ⟨⟨news, hq, hn⟩, hpres, hhop⟩ := ih _ _ _ _ _ _ h
              refine ⟨⟨v :: news, by simpa using hq, ?_⟩, ?_, ?_⟩
              · intro x hx
                rcases List.mem_cons.mp hx with rfl | hx
                · exact List.mem_cons_self _ _
                · exact List.mem_cons_of_mem _ (hn x hx)
              · intro b hb
                refine hpres b ?_
                rw [dlookup_dupdate]
                have hbv : ¬ b = v := by
                  intro hEq
                  rw [hEq, hmv] at hb
                  exact absurd hb (by simp)
                rw [if_neg hbv]
                exact hb
              · intro h0 hh
                rcases hhop h0 hh with h1 | h1
                · exact Or.inl (List.mem_cons_of_mem _ h1)
                · exact Or.inr h1
          | queued =>
              simp only at h
              cases nh with
              | none =>
                  obtain ⟨⟨news, hq, hn⟩, hpres, hhop⟩ := ih _ _ _ _ _ _ h
                  refine ⟨⟨news, hq, fun x hx =>
                    List.mem_cons_of_mem _ (hn x hx)⟩, hpres, ?_⟩
                  intro h0 hh
                  rcases hhop h0 hh with h1 | h1
                  · exact Or.inl (List.mem_cons_of_mem _ h1)
                  · simp only [Option.some.injEq] at h1
                    exact Or.inl (h1 ▸ List.mem_cons_self _ _)
              | some cur =>
                  simp only at h
                  cases hdv : dlookup dist v with
                  | none => rw [hdv] at h; exact absurd h (by simp)
                  | some dv =>
                      rw [hdv] at h
                      cases hdc : dlookup dist cur with
                      | none =>
                          rw [hdc] at h; exact absurd h (by simp)
                      | some dc =>
                          rw [hdc] at h
                          simp only at h
                          obtain ⟨⟨news, hq, hn⟩, hpres, hhop⟩ :=
                            ih _ _ _ _ _ _ h
                          refine ⟨⟨news, hq, fun x hx =>
                            List.mem_cons_of_mem _ (hn x hx)⟩, hpres, ?_⟩
                          intro h0 hh
                          rcases hhop h0 hh with h1 | h1
                          · exact Or.inl (List.mem_cons_of_mem _ h1)
                          · by_cases hlt : dv < dc
                            · rw [if_pos hlt] at h1
                              simp only [Option.some.injEq] at h1
                              exact Or.inl (h1 ▸ List.mem_cons_self _ _)
                            · rw [if_neg hlt] at h1
                              exact Or.inr h1
          | visited =>
              simp only at h
              cases nh with
              | none =>
                  obtain ⟨⟨news, hq, hn⟩, hpres, hhop⟩ := ih _ _ _ _ _ _ h
                  refine ⟨⟨news, hq, fun x hx =>
                    List.mem_cons_of_mem _ (hn x hx)⟩, hpres, ?_⟩
                  intro h0 hh
                  rcases hhop h0 hh with h1 | h1
                  · exact Or.inl (List.mem_cons_of_mem _ h1)
                  · simp only [Option.some.injEq] at h1
                    exact Or.inl (h1 ▸ List.mem_cons_self _ _)
              | some cur =>
                  simp only at h
                  cases hdv : dlookup dist v with
                  | none => rw [hdv] at h; exact absurd h (by simp)
                  | some dv =>
                      rw [hdv] at h
                      cases hdc : dlookup dist cur with
                      | none =>
                          rw [hdc] at h; exact absurd h (by simp)
                      | some dc =>
                          rw [hdc] at h
                          simp only at h
                          obtain ⟨⟨news, hq, hn⟩, hpres, hhop⟩ :=
                            ih _ _ _ _ _ _ h
                          refine ⟨⟨news, hq, fun x hx =>
                            List.mem_cons_of_mem _ (hn x hx)⟩, hpres, ?_⟩
                          intro h0 hh
                          rcases hhop h0 hh with h1 | h1
                          · exact Or.inl (List.mem_cons_of_mem _ h1)
                          · by_cases hlt : dv < dc
                            · rw [if_pos hlt] at h1
                              simp only [Option.some.injEq] at h1
                              exact Or.inl (h1 ▸ List.mem_cons_self _ _)
                            · rw [if_neg hlt] at h1
                              exact Or.inr h1

theorem scanNeighbours_choice (dist : List (Nat × WithTop Nat)) :
    ∀ (l : List Nat) (mark : List (Nat × Mark)) (queue : List Nat)
      (nh : Option Nat) (mark' : List (Nat × Mark)) (queue' : List Nat)
      (nh' : Option Nat),
      scanNeighbours dist l mark queue nh = .ok (mark', queue', nh') →
      ((∃ b ∈ l, dlookup mark b = some Mark.visited ∧
          ∃ db, dlookup dist b = some db ∧ db ≠ ⊤) ∨
        (∃ cur, nh = some cur ∧ ∃ dc, dlookup dist cur = some dc ∧ dc ≠ ⊤)) →
      ∃ h0, nh' = some h0 ∧ ∃ dh, dlookup dist h0 = some dh ∧ dh ≠ ⊤ := by
  intro l
  induction l with
  | nil =>
      intro mark queue nh mark' queue' nh' h hinv
      simp only [scanNeighbours] at h
      cases h
      rcases hinv with ⟨b, hb, _⟩ | ⟨cur, hcur, dc, hdc, hne⟩
      · simp at hb
      · exact ⟨cur, hcur, dc, hdc, hne⟩
  | cons v vs ih =>
      intro mark queue nh mark' queue' nh' h hinv
      simp only [scanNeighbours] at h
      cases hmv : dlookup mark v with
      | none => rw [hmv] at h; exact absurd h (by simp)
      | some mv =>
          rw [hmv] at h
          cases mv with
          | notVisited =>
              simp only at h
              refine ih _ _ _ _ _ _ h ?_
              rcases hinv with ⟨b, hb, hbm, db, hdb, hne⟩ | hr
              · rcases List.mem_cons.mp hb with rfl | hb'
                · rw [hmv] at hbm; exact absurd hbm (by simp)
                · refine Or.inl ⟨b, hb', ?_, db, hdb, hne⟩
                  rw [dlookup_dupdate]
                  have hbv : ¬ b = v := by
                    intro hEq
                    rw [hEq, hmv] at hbm
                    exact absurd hbm (by simp)
                  rw [if_neg hbv]
                  exact hbm
              · exact Or.inr hr
          | queued =>
              simp only at h
              cases nh with
              | none =>
                  refine ih _ _ _ _ _ _ h ?_
                  rcases hinv with ⟨b, hb, hbm, db, hdb, hne⟩ | ⟨cur, hcur, _⟩
                  · rcases List.mem_cons.mp hb with rfl | hb'
                    · rw [hmv] at hbm; exact absurd hbm (by simp)
                    · exact Or.inl ⟨b, hb', hbm, db, hdb, hne⟩
                  · exact absurd hcur (by simp)
              | some cur =>
                  simp only at h
                  cases hdv : dlookup dist v with
                  | none => rw [hdv] at h; exact absurd h (by simp)
                  | some dv =>
                      rw [hdv] at h
                      cases hdc : dlookup dist cur with
                      | none => rw [hdc] at h; exact absurd h (by simp)
                      | some dc =>
                          rw [hdc] at h
                          simp only at h
                          refine ih _ _ _ _ _ _ h ?_
                          rcases hinv with ⟨b, hb, hbm, db, hdb, hne⟩ |
                            ⟨cur', hcur', dc', hdc', hne'⟩
                          · rcases List.mem_cons.mp hb with rfl | hb'
                            · rw [hmv] at hbm; exact absurd hbm (by simp)
                            · exact Or.inl ⟨b, hb', hbm, db, hdb, hne⟩
                          · simp only [Option.some.injEq] at hcur'
                            subst hcur'
                            rw [hdc] at hdc'
                            simp only [Option.some.injEq] at hdc'
                            subst hdc'
                            by_cases hlt : dv < dc
                            · rw [if_pos hlt]
                              refine Or.inr ⟨v, rfl, dv, hdv, ?_⟩
                              intro hEq
                              rw [hEq] at hlt
                              exact absurd (lt_of_le_of_lt le_top hlt)
                                (lt_irrefl _)
                            · rw [if_neg hlt]
                              exact Or.inr ⟨cur, rfl, dc, hdc, hne'⟩
          | visited =>
              simp only at h
              cases nh with
              | none =>
                  refine ih _ _ _ _ _ _ h ?_
                  rcases hinv with ⟨b, hb, hbm, db, hdb, hne⟩ | ⟨cur, hcur, _⟩
                  · rcases List.mem_cons.mp hb with rfl | hb'
                    · exact Or.inr ⟨b, rfl, db, hdb, hne⟩
                    · exact Or.inl ⟨b, hb', hbm, db, hdb, hne⟩
                  · exact absurd hcur (by simp)
              | some cur =>
                  simp only at h
                  cases hdv : dlookup dist v with
                  | none => rw [hdv] at h; exact absurd h (by simp)
                  | some dv =>
                      rw [hdv] at h
                      cases hdc : dlookup dist cur with
                      | none => rw [hdc] at h; exact absurd h (by simp)
                      | some dc =>
                          rw [hdc] at h
                          simp only at h
                          refine ih _ _ _ _ _ _ h ?_
                          rcases hinv with ⟨b, hb, hbm, db, hdb, hne⟩ |
                            ⟨cur', hcur', dc', hdc', hne'⟩
                          · rcases List.mem_cons.mp hb with rfl | hb'
                            · rw [hdv] at hdb
                              simp only [Option.some.injEq] at hdb
                              subst hdb
                              by_cases hlt : dv < dc
                              · rw [if_pos hlt]
                                exact Or.inr ⟨b, rfl, dv, hdv, hne⟩
                              · rw [if_neg hlt]
                                refine Or.inr ⟨cur, rfl, dc, hdc, ?_⟩
                                intro hEq
                                rw [hEq] at hlt
                                exact hlt (lt_of_le_of_ne le_top hne)
                            · exact Or.inl ⟨b, hb', hbm, db, hdb, hne⟩
                          · simp only [Option.some.injEq] at hcur'
                            subst hcur'
                            rw [hdc] at hdc'
                            simp only [Option.some.injEq] at hdc'
                            subst hdc'
                            by_cases hlt : dv < dc
                            · rw [if_pos hlt]
                              refine Or.inr ⟨v, rfl, dv, hdv, ?_⟩
                              intro hEq
                              rw [hEq] at hlt
                              exact absurd (lt_of_le_of_lt le_top hlt)
                                (lt_irrefl _)
                            · rw [if_neg hlt]
                              exact Or.inr ⟨cur, rfl, dc, hdc, hne'⟩

/-- Facts the dynamic loop needs about the pruned adjacency map: symmetry
and freedom from excluded addresses. -/
def AdjFacts (ex : List Nat) (adj : List (Nat × List Nat)) : Prop :=
  (∀ x y, y ∈ adjList adj x → x ∈ adjList adj y) ∧
  (∀ x y, y ∈ adjList adj x → y ∉ ex)

theorem pruned_adjFacts {t : Topology} {ex : List Nat}
    (hwf : (t.nodes.map Node.address).Nodup)
    {adj : List (Nat × List Nat)}
    (h : pruneNeigh ex (neighbours t) = .ok adj) : AdjFacts ex adj := by
  obtain ⟨hsym0, hsub0, _⟩ := neighbours_inv t hwf
  obtain ⟨hsym, hsub, hkeys⟩ := pruneNeigh_inv ex _ adj h hsym0 hsub0
  constructor
  · intro x y hy
    have hp := List.count_pos_iff.mpr hy
    rw [hsym x y] at hp
    exact List.count_pos_iff.mp hp
  · intro x y hy
    exact (hkeys y (hsub x y hy)).2

/-- Every finite entry of the `distance` dict belongs to a visited node
owning a route record with exactly that distance. -/
def DistInv (mark : List (Nat × Mark)) (dist : List (Nat × WithTop Nat))
    (routes : List RouteRecord) : Prop :=
  ∀ b db, dlookup dist b = some db → db ≠ ⊤ →
    dlookup mark b = some Mark.visited ∧
    ∃ r ∈ routes, r.source = b ∧ r.distance = db

/-- Every queued node is non-excluded and has a neighbour whose distance is
already finite (the node that enqueued it). -/
def QueueInv (adj : List (Nat × List Nat)) (dist : List (Nat × WithTop Nat))
    (ex : List Nat) (queue : List Nat) : Prop :=
  ∀ a ∈ queue, a ∉ ex ∧
    ∃ b ∈ adjList adj a, ∃ db, dlookup dist b = some db ∧ db ≠ ⊤

/-- Every `gw_map` value is `None` or a non-excluded address. -/
def GwMapInv (ex : List Nat) (gwMap : List (Nat × Option Nat)) : Prop :=
  ∀ p ∈ gwMap, ∀ v, p.2 = some v → v ∉ ex

/-- The route-list invariant shared by both builders (claims C2 and C4). -/
def RoutesInv (ex : List Nat) (routes : List RouteRecord) : Prop :=
  ∀ r ∈ routes, recordRespectsExclude ex r ∧ recordNoDangling routes r

theorem dynLoop_routes_mono (adj : List (Nat × List Nat)) :
    ∀ (fuel : Nat) (mark : List (Nat × Mark))
      (dist : List (Nat × WithTop Nat)) (gwMap : List (Nat × Option Nat))
      (queue : List Nat) (routes rs : List RouteRecord),
      dynLoop adj fuel mark dist gwMap queue routes = .ok rs →
      ∀ r ∈ routes, r ∈ rs := by
  intro fuel
  induction fuel with
  | zero =>
      intro mark dist gwMap queue routes rs h
      cases queue with
      | nil =>
          simp only [dynLoop] at h
          cases h
          exact fun r hr => hr
      | cons a q => simp [dynLoop] at h
  | succ n ih =>
      intro mark dist gwMap queue routes rs h
      cases queue with
      | nil =>
          simp only [dynLoop] at h
          cases h
          exact fun r hr => hr
      | cons node qrest =>
          simp only [dynLoop] at h
          cases hadj : dlookup adj node with
          | none => rw [hadj] at h; exact absurd h (by simp)
          | some nbrs =>
              rw [hadj] at h
              simp only at h
              cases hscan : scanNeighbours dist nbrs mark qrest none with
              | error e => rw [hscan] at h; exact absurd h (by simp)
              | ok out =>
                  rw [hscan] at h
                  obtain ⟨mark', queue', nh⟩ := out
                  simp only at h
                  cases nh with
                  | none => exact ih _ _ _ _ _ _ h
                  | some h0 =>
                      simp only at h
                      cases hdh : dlookup dist h0 with
                      | none => rw [hdh] at h; exact absurd h (by simp)
                      | some dh =>
                          rw [hdh] at h
                          cases hgw : dlookup gwMap h0 with
                          | none => rw [hgw] at h; exact absurd h (by simp)
                          | some gw =>
                              rw [hgw] at h
                              simp only at h
                              intro r hr
                              exact ih _ _ _ _ _ _ h r
                                (List.mem_append_left _ hr)

theorem seedGateways_emits (adj : List (Nat × List Nat)) :
    ∀ (gs : List Nat) (mark : List (Nat × Mark))
      (dist : List (Nat × WithTop Nat)) (gwMap : List (Nat × Option Nat))
      (queue : List Nat) (routes : List RouteRecord) out,
      seedGateways adj gs mark dist gwMap queue routes = .ok out →
      (∀ r ∈ routes, r ∈ out.2.2.2.2) ∧
      ∀ g ∈ gs,
        (⟨g, g, some g, (0 : WithTop Nat), true⟩ : RouteRecord) ∈
          out.2.2.2.2 := by
  intro gs
  induction gs with
  | nil =>
      intro mark dist gwMap queue routes out h
      simp only [seedGateways] at h
      cases h
      exact ⟨fun r hr => hr, fun g hg => by simp at hg⟩
  | cons g gs' ih =>
      intro mark dist gwMap queue routes out h
      simp only [seedGateways] at h
      cases hadj : dlookup adj g with
      | none => rw [hadj] at h; exact absurd h (by simp)
      | some nbrs =>
          rw [hadj] at h
          simp only at h
          cases hscan : seedScan nbrs mark queue with
          | error e => rw [hscan] at h; exact absurd h (by simp)
          | ok st =>
              rw [hscan] at h
              obtain ⟨mark', queue'⟩ := st
              simp only at h
              obtain ⟨hmono, hrec⟩ := ih _ _ _ _ _ _ h
              refine ⟨fun r hr => hmono r (List.mem_append_left _ hr), ?_⟩
              intro g' hg'
              rcases List.mem_cons.mp hg' with rfl | hg'
              · exact hmono _ (List.mem_append_right _ (by simp))
              · exact hrec g' hg'

theorem seedGateways_inv {ex : List Nat} {adj : List (Nat × List Nat)}
    (hadj : AdjFacts ex adj) :
    ∀ (gs : List Nat) (mark : List (Nat × Mark))
      (dist : List (Nat × WithTop Nat)) (gwMap : List (Nat × Option Nat))
      (queue : List Nat) (routes : List RouteRecord)
      (mark1 : List (Nat × Mark)) (dist1 : List (Nat × WithTop Nat))
      (gwMap1 : List (Nat × Option Nat)) (queue1 : List Nat)
      (routes1 : List RouteRecord),
      seedGateways adj gs mark dist gwMap queue routes =
        .ok (mark1, dist1, gwMap1, queue1, routes1) →
      (∀ g ∈ gs, g ∉ ex) →
      DistInv mark dist routes →
      QueueInv adj dist ex queue →
      GwMapInv ex gwMap →
      RoutesInv ex routes →
      DistInv mark1 dist1 routes1 ∧ QueueInv adj dist1 ex queue1 ∧
        GwMapInv ex gwMap1 ∧ RoutesInv ex routes1 := by
  intro gs
  induction gs with
  | nil =>
      intro mark dist gwMap queue routes mark1 dist1 gwMap1 queue1 routes1
        h hgs hD hQ hG hR
      simp only [seedGateways] at h
      cases h
      exact ⟨hD, hQ, hG, hR⟩
  | cons g gs' ih =>
      intro mark dist gwMap queue routes mark1 dist1 gwMap1 queue1 routes1
        h hgs hD hQ hG hR
      simp only [seedGateways] at h
      cases hadjg : dlookup adj g with
      | none => rw [hadjg] at h; exact absurd h (by simp)
      | some nbrs =>
          rw [hadjg] at h
          simp only at h
          cases hscan : seedScan nbrs mark queue with
          | error e => rw [hscan] at h; exact absurd h (by simp)
          | ok st =>
              rw [hscan] at h
              obtain ⟨mark', queue'⟩ := st
              simp only at h
              obtain ⟨⟨news, hq', hnews⟩, hpres⟩ :=
                seedScan_spec nbrs mark queue mark' queue' hscan
              have hgex : g ∉ ex := hgs g (List.mem_cons_self _ _)
              have hnbrs : adjList adj g = nbrs := adjList_eq_of_lookup hadjg
              set rg : RouteRecord := ⟨g, g, some g, (0 : WithTop Nat), true⟩
                with hrg
              refine ih _ _ _ _ _ _ _ _ _ _ h
                (fun g' hg' => hgs g' (List.mem_cons_of_mem _ hg'))
                ?_ ?_ ?_ ?_
              · -- DistInv
                intro b db hdb hne
                rw [dlookup_dupdate] at hdb
                by_cases hb : b = g
                · rw [if_pos hb] at hdb
                  simp only [Option.some.injEq] at hdb
                  subst hdb
                  subst hb
                  refine ⟨by rw [dlookup_dupdate, if_pos rfl], ?_⟩
                  exact ⟨rg, List.mem_append_right _ (by simp), rfl, rfl⟩
                · rw [if_neg hb] at hdb
                  obtain ⟨hm, r, hrmem, hrs, hrd⟩ := hD b db hdb hne
                  refine ⟨?_, r, List.mem_append_left _ hrmem, hrs, hrd⟩
                  rw [dlookup_dupdate, if_neg hb]
                  exact hpres b hm
              · -- QueueInv
                intro a ha
                rw [hq'] at ha
                rcases List.mem_append.mp ha with ha | ha
                · obtain ⟨hax, b, hbadj, db, hdb, hne⟩ := hQ a ha
                  refine ⟨hax, b, hbadj, ?_⟩
                  rw [dlookup_dupdate]
                  by_cases hb : b = g
                  · exact ⟨0, by rw [if_pos hb], by simp⟩
                  · exact ⟨db, by rw [if_neg hb]; exact hdb, hne⟩
                · have hanb : a ∈ adjList adj g := hnbrs ▸ hnews a ha
                  refine ⟨hadj.2 g a hanb, g, hadj.1 g a hanb, 0, ?_, by simp⟩
                  rw [dlookup_dupdate, if_pos rfl]
              · -- GwMapInv
                intro p hp v hv
                rcases mem_dupdate p hp with hp' | hp'
                · exact hG p hp' v hv
                · rw [hp'] at hv
                  simp only [Option.some.injEq] at hv
                  subst hv
                  exact hgex
              · -- RoutesInv
                intro r hr
                rcases List.mem_append.mp hr with hr | hr
                · obtain ⟨h1, h2⟩ := hR r hr
                  exact ⟨h1, recordNoDangling_mono
                    (fun x hx => List.mem_append_left _ hx) h2⟩
                · simp only [List.mem_singleton] at hr
                  subst hr
                  refine ⟨⟨hgex, hgex, ?_⟩, Or.inl rfl⟩
                  intro v hv
                  simp only [hrg] at hv
                  simp only [Option.some.injEq] at hv
                  subst hv
                  exact hgex

theorem dynLoop_inv {ex : List Nat} {adj : List (Nat × List Nat)}
    (hadj : AdjFacts ex adj) :
    ∀ (fuel : Nat) (mark : List (Nat × Mark))
      (dist : List (Nat × WithTop Nat)) (gwMap : List (Nat × Option Nat))
      (queue : List Nat) (routes rs : List RouteRecord),
      dynLoop adj fuel mark dist gwMap queue routes = .ok rs →
      DistInv mark dist routes → QueueInv adj dist ex queue →
      GwMapInv ex gwMap → RoutesInv ex routes →
      RoutesInv ex rs := by
  intro fuel
  induction fuel with
  | zero =>
      intro mark dist gwMap queue routes rs h hD hQ hG hR
      cases queue with
      | nil =>
          simp only [dynLoop] at h
          cases h
          exact hR
      | cons a q => simp [dynLoop] at h
  | succ n ih =>
      intro mark dist gwMap queue routes rs h hD hQ hG hR
      cases queue with
      | nil =>
          simp only [dynLoop] at h
          cases h
          exact hR
      | cons node qrest =>
          simp only [dynLoop] at h
          cases hadjn : dlookup adj node with
          | none => rw [hadjn] at h; exact absurd h (by simp)
          | some nbrs =>
              rw [hadjn] at h
              simp only at h
              cases hscan : scanNeighbours dist nbrs mark qrest none with
              | error e => rw [hscan] at h; exact absurd h (by simp)
              | ok out =>
                  rw [hscan] at h
                  obtain ⟨mark', queue', nh⟩ := out
                  simp only at h
                  have hnbrs : adjList adj node = nbrs :=
                    adjList_eq_of_lookup hadjn
                  obtain ⟨hnode_ex, b0, hb0adj, db0, hdb0, hne0⟩ :=
                    hQ node (List.mem_cons_self _ _)
                  have hb0m : dlookup mark b0 = some Mark.visited :=
                    (hD b0 db0 hdb0 hne0).1
                  obtain ⟨h0, hnh, dh, hdh, hdhne⟩ :=
                    scanNeighbours_choice dist nbrs mark qrest none
                      mark' queue' nh hscan
                      (Or.inl ⟨b0, hnbrs ▸ hb0adj, hb0m, db0, hdb0, hne0⟩)
                  obtain ⟨⟨news, hq', hnews⟩, hpres, hhop⟩ :=
                    scanNeighbours_spec dist nbrs mark qrest none
                      mark' queue' nh hscan
                  subst hnh
                  simp only at h
                  cases hdh' : dlookup dist h0 with
                  | none => rw [hdh'] at h; exact absurd h (by simp)
                  | some dh' =>
                      rw [hdh'] at h
                      rw [hdh] at hdh'
                      simp only [Option.some.injEq] at hdh'
                      subst hdh'
                      cases hgw : dlookup gwMap h0 with
                      | none => rw [hgw] at h; exact absurd h (by simp)
                      | some gw =>
                          rw [hgw] at h
                          simp only at h
                          have hh0nbrs : h0 ∈ nbrs := by
                            rcases hhop h0 rfl with h1 | h1
                            · exact h1
                            · exact absurd h1 (by simp)
                          have hh0adj : h0 ∈ adjList adj node :=
                            hnbrs ▸ hh0nbrs
                          have hh0ex : h0 ∉ ex := hadj.2 node h0 hh0adj
                          have hgwex : ∀ v, gw = some v → v ∉ ex :=
                            hG _ (dlookup_mem hgw)
                          have hd1ne : dh + 1 ≠ ⊤ := by
                            intro hEq
                            rcases WithTop.add_eq_top.mp hEq with h1 | h1
                            · exact hdhne h1
                            · exact absurd h1 (by simp)
                          obtain ⟨rh, hrhmem, hrhs, hrhd⟩ :=
                            (hD h0 dh hdh hdhne).2
                          set rnew : RouteRecord :=
                            ⟨node, h0, gw, dh + 1, false⟩ with hrnew
                          refine ih _ _ _ _ _ _ h ?_ ?_ ?_ ?_
                          · -- DistInv
                            intro b db hdb hne
                            rw [dlookup_dupdate] at hdb
                            by_cases hb : b = node
                            · rw [if_pos hb] at hdb
                              simp only [Option.some.injEq] at hdb
                              subst hdb
                              subst hb
                              refine ⟨by rw [dlookup_dupdate, if_pos rfl],
                                rnew, List.mem_append_right _ (by simp),
                                rfl, rfl⟩
                            · rw [if_neg hb] at hdb
                              obtain ⟨hm, r, hrmem, hrs, hrd⟩ :=
                                hD b db hdb hne
                              refine ⟨?_, r, List.mem_append_left _ hrmem,
                                hrs, hrd⟩
                              rw [dlookup_dupdate, if_neg hb]
                              exact hpres b hm
                          · -- QueueInv
                            intro a ha
                            rw [hq'] at ha
                            rcases List.mem_append.mp ha with ha | ha
                            · obtain ⟨hax, b, hbadj, db, hdb, hne⟩ :=
                                hQ a (List.mem_cons_of_mem _ ha)
                              refine ⟨hax, b, hbadj, ?_⟩
                              rw [dlookup_dupdate]
                              by_cases hb : b = node
                              · exact ⟨dh + 1, by rw [if_pos hb], hd1ne⟩
                              · exact ⟨db, by rw [if_neg hb]; exact hdb, hne⟩
                            · have hanb : a ∈ adjList adj node :=
                                hnbrs ▸ hnews a ha
                              refine ⟨hadj.2 node a hanb, node,
                                hadj.1 node a hanb, dh + 1, ?_, hd1ne⟩
                              rw [dlookup_dupdate, if_pos rfl]
                          · -- GwMapInv
                            intro p hp v hv
                            rcases mem_dupdate p hp with hp' | hp'
                            · exact hG p hp' v hv
                            · rw [hp'] at hv
                              exact hgwex v hv
                          · -- RoutesInv
                            intro r hr
                            rcases List.mem_append.mp hr with hr | hr
                            · obtain ⟨h1, h2⟩ := hR r hr
                              exact ⟨h1, recordNoDangling_mono
                                (fun x hx => List.mem_append_left _ hx) h2⟩
                            · simp only [List.mem_singleton] at hr
                              subst hr
                              refine ⟨⟨hnode_ex, hh0ex, hgwex⟩, Or.inr ?_⟩
                              exact ⟨rh, List.mem_append_left _ hrhmem,
                                hrhs, by rw [hrhd]⟩

theorem build_routes_inv (t : Topology) (ex : List Nat)
    (hwf : t.WF) (fuel : Nat) (rs : List RouteRecord)
    (h : build_routes t ex fuel = .ok rs) : RoutesInv ex rs := by
  unfold build_routes at h
  cases hprune : pruneNeigh ex (neighbours t) with
  | error e => rw [hprune] at h; exact absurd h (by simp)
  | ok adj =>
      rw [hprune] at h
      simp only at h
      have hfacts := pruned_adjFacts hwf.1 hprune
      cases hseed : seedGateways adj (gatewayAddrs (filteredNodes t ex))
          ((filteredNodes t ex).map (fun n =>
            (n.address,
              if n.type == NodeType.sensor then Mark.notVisited
              else Mark.queued)))
          ((filteredNodes t ex).map
            (fun n => (n.address, (⊤ : WithTop Nat))))
          ((filteredNodes t ex).map
            (fun n => (n.address, (none : Option Nat))))
          [] [] with
      | error e => rw [hseed] at h; exact absurd h (by simp)
      | ok st =>
          rw [hseed] at h
          obtain ⟨mark1, dist1, gwMap1, queue1, routes1⟩ := st
          simp only at h
          have hD0 : DistInv ((filteredNodes t ex).map (fun n =>
              (n.address,
                if n.type == NodeType.sensor then Mark.notVisited
                else Mark.queued)))
              ((filteredNodes t ex).map
                (fun n => (n.address, (⊤ : WithTop Nat)))) [] := by
            intro b db hdb hne
            have hmem := dlookup_mem hdb
            simp only [List.mem_map] at hmem
            obtain ⟨nd, _, hnd⟩ := hmem
            cases hnd
            exact absurd rfl hne
          have hgs : ∀ g ∈ gatewayAddrs (filteredNodes t ex), g ∉ ex := by
            intro g hg
            exact (mem_filteredAddrs_iff.mp (gatewayAddrs_sub_addrs g hg)).2
          obtain ⟨hD1, hQ1, hG1, hR1⟩ := seedGateways_inv hfacts
            (gatewayAddrs (filteredNodes t ex)) _ _ _ _ _ _ _ _ _ _ hseed
            hgs hD0 (fun a ha => by simp at ha)
            (by
              intro p hp v hv
              simp only [List.mem_map] at hp
              obtain ⟨nd, _, hnd⟩ := hp
              rw [← hnd] at hv
              exact absurd hv (by simp))
            (fun r hr => by simp at hr)
          exact dynLoop_inv hfacts fuel _ _ _ _ _ _ h hD1 hQ1 hG1 hR1

theorem mem_gatewayAddrs_filtered {t : Topology} {ex : List Nat} {g : Nat}
    (hn : ∃ n ∈ t.nodes, n.address = g ∧ n.type = NodeType.gateway)
    (hgex : g ∉ ex) : g ∈ gatewayAddrs (filteredNodes t ex) := by
  obtain ⟨n, hmem, haddr, htype⟩ := hn
  simp only [gatewayAddrs, filteredNodes, List.mem_map, List.mem_filter]
  refine ⟨n, ⟨⟨hmem, ?_⟩, by simp [htype]⟩, haddr⟩
  cases hc : ex.contains n.address with
  | false => simp
  | true =>
      exact absurd (haddr ▸ (contains_iff_mem _ _).mp hc) hgex

theorem build_routes_gateway_selfrec (t : Topology) (ex : List Nat)
    (fuel : Nat) (rs : List RouteRecord)
    (h : build_routes t ex fuel = .ok rs) (g : Nat)
    (hg : g ∈ gatewayAddrs (filteredNodes t ex)) :
    (⟨g, g, some g, (0 : WithTop Nat), true⟩ : RouteRecord) ∈ rs := by
  unfold build_routes at h
  cases hprune : pruneNeigh ex (neighbours t) with
  | error e => rw [hprune] at h; exact absurd h (by simp)
  | ok adj =>
      rw [hprune] at h
      simp only at h
      cases hseed : seedGateways adj (gatewayAddrs (filteredNodes t ex))
          ((filteredNodes t ex).map (fun n =>
            (n.address,
              if n.type == NodeType.sensor then Mark.notVisited
              else Mark.queued)))
          ((filteredNodes t ex).map
            (fun n => (n.address, (⊤ : WithTop Nat))))
          ((filteredNodes t ex).map
            (fun n => (n.address, (none : Option Nat))))
          [] [] with
      | error e => rw [hseed] at h; exact absurd h (by simp)
      | ok st =>
          rw [hseed] at h
          obtain ⟨mark1, dist1, gwMap1, queue1, routes1⟩ := st
          simp only at h
          have hrec := (seedGateways_emits adj _ _ _ _ _ _ _ hseed).2 g hg
          exact dynLoop_routes_mono adj fuel _ _ _ _ _ _ h _ hrec

theorem initGwDict_gateway_lookup {nodes : List Node}
    (hnd : (nodes.map Node.address).Nodup) {g : Nat}
    (hg : g ∈ gatewayAddrs nodes) :
    dlookup (initGwDict nodes) g = some (some g) := by
  simp only [gatewayAddrs, List.mem_map, List.mem_filter] at hg
  obtain ⟨n, ⟨hmem, htype⟩, rfl⟩ := hg
  have hentry : (n.address, some n.address) ∈ initGwDict nodes := by
    simp only [initGwDict, List.mem_map]
    exact ⟨n, hmem, by simp [htype]⟩
  refine dlookup_eq_of_mem_nodup ?_ hentry
  have : (initGwDict nodes).map Prod.fst = nodes.map Node.address := by
    simp [initGwDict, List.map_map]
  rw [this]
  exact hnd

theorem build_static_routes_inv (t : Topology) (ex : List Nat)
    (fuel : Nat) (rs : List RouteRecord)
    (h : build_static_routes t ex fuel = .ok rs) : RoutesInv ex rs := by
  unfold build_static_routes build_static_routes_log at h
  by_cases hok : precursorsOk t ex
  · rw [if_pos hok] at h
    cases hloop : staticLoop t ex fuel (initGwDict (filteredNodes t ex))
        ((gatewayAddrs (filteredNodes t ex)).map (fun g => (g, g, 0)))
        [] (gatewayAddrs (filteredNodes t ex)) with
    | error e => rw [hloop] at h; exact absurd h (by simp [Except.map])
    | ok out =>
        rw [hloop] at h
        obtain ⟨rs', log'⟩ := out
        simp only [Except.map, Except.ok.injEq] at h
        subst h
        refine staticLoop_inv t ex fuel _ _ _ _ _ _ hloop ?_ ?_
          (fun r hr => by simp at hr)
        · intro e he
          simp only [List.mem_map] at he
          obtain ⟨g, hg, rfl⟩ := he
          have hgex : g ∉ ex :=
            (mem_filteredAddrs_iff.mp (gatewayAddrs_sub_addrs g hg)).2
          exact ⟨hgex, hgex, Or.inl rfl⟩
        · intro p hp v hv
          simp only [initGwDict, List.mem_map] at hp
          obtain ⟨n, hn, hpn⟩ := hp
          rw [← hpn] at hv
          simp only at hv
          by_cases htype : n.type == NodeType.gateway
          · rw [if_pos htype] at hv
            simp only [Option.some.injEq] at hv
            subst hv
            have hmem : n.address ∈ filteredAddrs t ex := by
              simp only [filteredAddrs, List.mem_map]
              exact ⟨n, hn, rfl⟩
            exact (mem_filteredAddrs_iff.mp hmem).2
          · rw [if_neg htype] at hv
            exact absurd hv (by simp)
  · rw [if_neg hok] at h
    exact absurd h (by simp [Except.map])

theorem build_static_routes_gateway_selfrec (t : Topology) (ex : List Nat)
    (hwf : t.WF) (fuel : Nat) (rs : List RouteRecord)
    (h : build_static_routes t ex fuel = .ok rs) (g : Nat)
    (hg : g ∈ gatewayAddrs (filteredNodes t ex)) :
    (⟨g, g, some g, (0 : WithTop Nat), true⟩ : RouteRecord) ∈ rs := by
  unfold build_static_routes build_static_routes_log at h
  by_cases hok : precursorsOk t ex
  · rw [if_pos hok] at h
    cases hloop : staticLoop t ex fuel (initGwDict (filteredNodes t ex))
        ((gatewayAddrs (filteredNodes t ex)).map (fun g => (g, g, 0)))
        [] (gatewayAddrs (filteredNodes t ex)) with
    | error e => rw [hloop] at h; exact absurd h (by simp [Except.map])
    | ok out =>
        rw [hloop] at h
        obtain ⟨rs', log'⟩ := out
        simp only [Except.map, Except.ok.injEq] at h
        subst h
        have hndf : ((filteredNodes t ex).map Node.address).Nodup :=
          ((List.filter_sublist _).map Node.address).nodup hwf.1
        have hloop' : staticLoop t ex fuel
            (initGwDict (filteredNodes t ex))
            (((gatewayAddrs (filteredNodes t ex)).map
              (fun g => (g, g, 0))) ++ [])
            [] (gatewayAddrs (filteredNodes t ex)) = .ok (rs', log') := by
          rw [List.append_nil]
          exact hloop
        exact staticLoop_seeds t ex (gatewayAddrs (filteredNodes t ex))
          fuel _ _ _ _ _ _ hloop'
          (gatewayAddrs_filtered_nodup ex hwf.1)
          (fun g' hg' => initGwDict_gateway_lookup hndf hg') g hg
  · rw [if_neg hok] at h
    exact absurd h (by simp [Except.map])

/-! ### Claim theorems C2, C3, C4 -/

/-- A small concrete topology used to witness the build-level claims: one
gateway (address 1), one sensor (address 2), a fixed connection 2 → 1, and a
radio model in which every pair of nodes is within range. -/
def wtop : Topology :=
  ⟨[⟨1, NodeType.gateway⟩, ⟨2, NodeType.sensor⟩], [(2, 1)], fun _ _ => true⟩

/-- The static route table the builders produce on `wtop` with no exclusions. -/
def wstatRoutes : List RouteRecord :=
  [⟨1, 1, some 1, 0, true⟩, ⟨2, 1, some 1, 1, true⟩]

/-- The dynamic route table the builders produce on `wtop` with no
exclusions (the sensor record is non-static). -/
def wdynRoutes : List RouteRecord :=
  [⟨1, 1, some 1, 0, true⟩, ⟨2, 1, some 1, 1, false⟩]

/-- C2: whenever a route build returns, every returned record `r` with
`r.next_hop ≠ r.source` is backed by a record for its next hop in the same
result, whose distance is exactly one less; this holds for the static
builder (`build_static_routes`) and the dynamic builder (`build_routes`). -/
theorem c2_no_dangling_hops (t : Topology) (ex : List Nat) (hwf : t.WF)
    (fuel : Nat) (rs : List RouteRecord) :
    (build_static_routes t ex fuel = .ok rs →
      ∀ r ∈ rs, r.next_hop ≠ r.source →
        ∃ r' ∈ rs, r'.source = r.next_hop ∧ r.distance = r'.distance + 1) ∧
    (build_routes t ex fuel = .ok rs →
      ∀ r ∈ rs, r.next_hop ≠ r.source →
        ∃ r' ∈ rs, r'.source = r.next_hop ∧ r.distance = r'.distance + 1) := by
  constructor
  · intro h r hr hne
    have hnd := (build_static_routes_inv t ex fuel rs h r hr).2
    simp only [recordNoDangling] at hnd
    rcases hnd with h1 | h2
    · exact absurd h1 hne
    · exact h2
  · intro h r hr hne
    have hnd := (build_routes_inv t ex hwf fuel rs h r hr).2
    simp only [recordNoDangling] at hnd
    rcases hnd with h1 | h2
    · exact absurd h1 hne
    · exact h2

/-- Witness for C2 on the concrete topology `wtop`: the sensor record
`(2, 1, 1, 1)` of the static table is backed by the gateway record. -/
theorem c2_no_dangling_hops_witness :
    wtop.WF ∧ build_static_routes wtop [] 5 = .ok wstatRoutes ∧
    (∃ r' ∈ wstatRoutes, r'.source = 1 ∧
      (⟨2, 1, some 1, 1, true⟩ : RouteRecord).distance = r'.distance + 1) :=
  ⟨⟨by decide, by decide⟩, rfl,
    (c2_no_dangling_hops wtop [] ⟨by decide, by decide⟩ 5 wstatRoutes).1 rfl
      ⟨2, 1, some 1, 1, true⟩ (by decide) (by decide)⟩

/-- C3: whenever a route build returns, every gateway `g` present in the
topology and not excluded owns the self-record
`(source = g, next_hop = g, gateway = g, distance = 0, static = true)` in
the result; this holds for both builders. -/
theorem c3_gateway_self_record (t : Topology) (ex : List Nat) (hwf : t.WF)
    (fuel : Nat) (rs : List RouteRecord) (g : Nat)
    (hpresent : ∃ n ∈ t.nodes, n.address = g ∧ n.type = NodeType.gateway)
    (hgex : g ∉ ex) :
    (build_static_routes t ex fuel = .ok rs →
      (⟨g, g, some g, 0, true⟩ : RouteRecord) ∈ rs) ∧
    (build_routes t ex fuel = .ok rs →
      (⟨g, g, some g, 0, true⟩ : RouteRecord) ∈ rs) := by
  have hg := mem_gatewayAddrs_filtered hpresent hgex
  exact ⟨fun h => build_static_routes_gateway_selfrec t ex hwf fuel rs h g hg,
    fun h => build_routes_gateway_selfrec t ex fuel rs h g hg⟩

/-- Witness for C3 on `wtop`: gateway 1 owns its self-record in both the
static and the dynamic table. -/
theorem c3_gateway_self_record_witness :
    (⟨1, 1, some 1, 0, true⟩ : RouteRecord) ∈ wstatRoutes ∧
    (⟨1, 1, some 1, 0, true⟩ : RouteRecord) ∈ wdynRoutes :=
  ⟨(c3_gateway_self_record wtop [] ⟨by decide, by decide⟩ 5 wstatRoutes 1
      ⟨⟨1, NodeType.gateway⟩, by decide, rfl, rfl⟩ (by decide)).1 rfl,
    (c3_gateway_self_record wtop [] ⟨by decide, by decide⟩ 5 wdynRoutes 1
      ⟨⟨1, NodeType.gateway⟩, by decide, rfl, rfl⟩ (by decide)).2 rfl⟩

/-- C4: whenever a route build returns, no returned record mentions an
excluded address as its source, its next hop, or its gateway; this holds
for both builders. -/
theorem c4_exclusion_respected (t : Topology) (ex : List Nat) (hwf : t.WF)
    (fuel : Nat) (rs : List RouteRecord) :
    (build_static_routes t ex fuel = .ok rs →
      ∀ r ∈ rs, r.source ∉ ex ∧ r.next_hop ∉ ex ∧
        ∀ v, r.gateway = some v → v ∉ ex) ∧
    (build_routes t ex fuel = .ok rs →
      ∀ r ∈ rs, r.source ∉ ex ∧ r.next_hop ∉ ex ∧
        ∀ v, r.gateway = some v → v ∉ ex) := by
  constructor
  · intro h r hr
    exact (build_static_routes_inv t ex fuel rs h r hr).1
  · intro h r hr
    exact (build_routes_inv t ex hwf fuel rs h r hr).1

/-- Witness for C4 on `wtop` with the sensor 2 excluded: the only record the
static builder returns is the gateway self-record, and none of its fields
mention the excluded address. -/
theorem c4_exclusion_respected_witness :
    (⟨1, 1, some 1, 0, true⟩ : RouteRecord).source ∉ ([2] : List Nat) ∧
    (⟨1, 1, some 1, 0, true⟩ : RouteRecord).next_hop ∉ ([2] : List Nat) ∧
    ∀ v, (⟨1, 1, some 1, 0, true⟩ : RouteRecord).gateway = some v →
      v ∉ ([2] : List Nat) :=
  (c4_exclusion_respected wtop [2] ⟨by decide, by decide⟩ 5
    [⟨1, 1, some 1, 0, true⟩]).1 rfl ⟨1, 1, some 1, 0, true⟩ (by decide)

/-! ### The duplicated dynamic builder of `network.py` (claim C10)

`network.py` lines 105–167 contain a second `build_routes`.  The following
definitions embed that copy, mirroring its body statement by statement
(the copy calls the same shared `topology.neighbours()`). -/

/-- `nodes = [n for n in nodes if n['address'] not in exclude]` of the
`network.py` copy (line 114). -/
def network_filteredNodes (t : Topology) (ex : List Nat) : List Node :=
  t.nodes.filter (fun n => !(ex.contains n.address))

/-- `gateways = [n['address'] for n in nodes if n['type'] == GATEWAY_NODE]`
of the `network.py` copy (line 115). -/
def network_gatewayAddrs (nodes : List Node) : List Nat :=
  (nodes.filter (fun n => n.type == NodeType.gateway)).map Node.address

/-- `neighbourhood[node_b].remove(node_a)` loop of the `network.py` copy
(lines 121–123). -/
def network_removeFromAll (a : Nat) :
    List Nat → List (Nat × List Nat) →
    Except BuildError (List (Nat × List Nat))
  | [], m => .ok m
  | b :: bs, m =>
      match dlookup m b with
      | none => .error .keyError
      | some lb =>
          if a ∈ lb then network_removeFromAll a bs (dupdate m b (lb.erase a))
          else .error .valueError

/-- The exclusion pruning loop of the `network.py` copy (lines 121–124). -/
def network_pruneNeigh :
    List Nat → List (Nat × List Nat) →
    Except BuildError (List (Nat × List Nat))
  | [], m => .ok m
  | a :: rest, m =>
      match dlookup m a with
      | none => .error .keyError
      | some l =>
          match network_removeFromAll a l m with
          | .error e => .error e
          | .ok m' => network_pruneNeigh rest (ddelete m' a)

/-- The gateway-seeding neighbour loop of the `network.py` copy
(lines 140–143). -/
def network_seedScan :
    List Nat → List (Nat × Mark) → List Nat →
    Except BuildError (List (Nat × Mark) × List Nat)
  | [], mark, queue => .ok (mark, queue)
  | v :: vs, mark, queue =>
      match dlookup mark v with
      | none => .error .keyError
      | some Mark.notVisited =>
          network_seedScan vs (dupdate mark v Mark.queued) (queue ++ [v])
      | some _ => network_seedScan vs mark queue

/-- The gateway seeding phase of the `network.py` copy (lines 138–146). -/
def network_seedGateways (adj : List (Nat × List Nat)) :
    List Nat → List (Nat × Mark) → List (Nat × WithTop Nat) →
    List (Nat × Option Nat) → List Nat → List RouteRecord →
    Except BuildError
      (List (Nat × Mark) × List (Nat × WithTop Nat) ×
        List (Nat × Option Nat) × List Nat × List RouteRecord)
  | [], mark, dist, gwMap, queue, routes =>
      .ok (mark, dist, gwMap, queue, routes)
  | g :: gs, mark, dist, gwMap, queue, routes =>
      let routes' := routes ++ [⟨g, g, some g, (0 : WithTop Nat), true⟩]
      match dlookup adj g with
      | none => .error .keyError
      | some nbrs =>
          match network_seedScan nbrs mark queue with
          | .error e => .error e
          | .ok (mark', queue') =>
              network_seedGateways adj gs (dupdate mark' g Mark.visited)
                (dupdate dist g 0) (dupdate gwMap g (some g)) queue' routes'

/-- The per-node neighbour scan of the `network.py` copy (lines 153–159). -/
def network_scanNeighbours (dist : List (Nat × WithTop Nat)) :
    List Nat → List (Nat × Mark) → List Nat → Option Nat →
    Except BuildError (List (Nat × Mark) × List Nat × Option Nat)
  | [], mark, queue, nh => .ok (mark, queue, nh)
  | v :: vs, mark, queue, nh =>
      match dlookup mark v with
      | none => .error .keyError
      | some Mark.notVisited =>
          network_scanNeighbours dist vs (dupdate mark v Mark.queued)
            (queue ++ [v]) nh
      | some _ =>
          match nh with
          | none => network_scanNeighbours dist vs mark queue (some v)
          | some cur =>
              match dlookup dist v, dlookup dist cur with
              | some dv, some dc =>
                  network_scanNeighbours dist vs mark queue
                    (if dv < dc then some v else some cur)
              | _, _ => .error .keyError

/-- The `while queue:` loop of the `network.py` copy (lines 150–166). -/
def network_dynLoop (adj : List (Nat × List Nat)) :
    Nat → List (Nat × Mark) → List (Nat × WithTop Nat) →
    List (Nat × Option Nat) → List Nat → List RouteRecord →
    Except BuildError (List RouteRecord)
  | _, _, _, _, [], routes => .ok routes
  | 0, _, _, _, _ :: _, _ => .error .outOfFuel
  | fuel + 1, mark, dist, gwMap, node :: qrest, routes =>
      match dlookup adj node with
      | none => .error .keyError
      | some nbrs =>
          match network_scanNeighbours dist nbrs mark qrest none with
          | .error e => .error e
          | .ok (mark', queue', nh) =>
              match nh with
              | none =>
                  network_dynLoop adj fuel (dupdate mark' node Mark.visited)
                    dist gwMap queue' routes
              | some h =>
                  match dlookup dist h, dlookup gwMap h with
                  | some dh, some gw =>
                      network_dynLoop adj fuel
                        (dupdate mark' node Mark.visited)
                        (dupdate dist node (dh + 1)) (dupdate gwMap node gw)
                        queue'
                        (routes ++ [⟨node, h, gw, dh + 1, false⟩])
                  | _, _ => .error .keyError

/-- `network.build_routes(topology, exclude)` (`network.py` lines
105–167). -/
def network_build_routes (t : Topology) (ex : List Nat) (fuel : Nat) :
    Except BuildError (List RouteRecord) :=
  match network_pruneNeigh ex (neighbours t) with
  | .error e => .error e
  | .ok adj =>
      let nodes := network_filteredNodes t ex
      match network_seedGateways adj (network_gatewayAddrs nodes)
        (nodes.map (fun n =>
          (n.address,
            if n.type == NodeType.sensor then Mark.notVisited
            else Mark.queued)))
        (nodes.map (fun n => (n.address, (⊤ : WithTop Nat))))
        (nodes.map (fun n => (n.address, (none : Option Nat))))
        [] [] with
      | .error e => .error e
      | .ok (mark1, dist1, gwMap1, queue1, routes1) =>
          network_dynLoop adj fuel mark1 dist1 gwMap1 queue1 routes1

theorem network_removeFromAll_eq (a : Nat) :
    ∀ (bs : List Nat) (m : List (Nat × List Nat)),
      network_removeFromAll a bs m = removeFromAll a bs m := by
  intro bs
  induction bs with
  | nil => intro m; rfl
  | cons b rest ih =>
      intro m
      simp only [network_removeFromAll, removeFromAll]
      cases dlookup m b with
      | none => rfl
      | some lb =>
          dsimp only
          by_cases hmem : a ∈ lb
          · rw [if_pos hmem, if_pos hmem, ih]
          · rw [if_neg hmem, if_neg hmem]

theorem network_pruneNeigh_eq :
    ∀ (ex : List Nat) (m : List (Nat × List Nat)),
      network_pruneNeigh ex m = pruneNeigh ex m := by
  intro ex
  induction ex with
  | nil => intro m; rfl
  | cons a rest ih =>
      intro m
      simp only [network_pruneNeigh, pruneNeigh]
      cases dlookup m a with
      | none => rfl
      | some l =>
          dsimp only
          rw [network_removeFromAll_eq]
          cases removeFromAll a l m with
          | error e => rfl
          | ok m' => exact ih (ddelete m' a)

theorem network_seedScan_eq :
    ∀ (vs : List Nat) (mark : List (Nat × Mark)) (queue : List Nat),
      network_seedScan vs mark queue = seedScan vs mark queue := by
  intro vs
  induction vs with
  | nil => intro mark queue; rfl
  | cons v rest ih =>
      intro mark queue
      simp only [network_seedScan, seedScan]
      cases dlookup mark v with
      | none => rfl
      | some mk => cases mk <;> simp only [ih]

theorem network_seedGateways_eq (adj : List (Nat × List Nat)) :
    ∀ (gs : List Nat) (mark : List (Nat × Mark))
      (dist : List (Nat × WithTop Nat)) (gwMap : List (Nat × Option Nat))
      (queue : List Nat) (routes : List RouteRecord),
      network_seedGateways adj gs mark dist gwMap queue routes =
        seedGateways adj gs mark dist gwMap queue routes := by
  intro gs
  induction gs with
  | nil => intro mark dist gwMap queue routes; rfl
  | cons g rest ih =>
      intro mark dist gwMap queue routes
      simp only [network_seedGateways, seedGateways]
      cases dlookup adj g with
      | none => rfl
      | some nbrs =>
          dsimp only
          rw [network_seedScan_eq]
          cases seedScan nbrs mark queue with
          | error e => rfl
          | ok p => exact ih _ _ _ _ _

theorem network_scanNeighbours_eq (dist : List (Nat × WithTop Nat)) :
    ∀ (vs : List Nat) (mark : List (Nat × Mark)) (queue : List Nat)
      (nh : Option Nat),
      network_scanNeighbours dist vs mark queue nh =
        scanNeighbours dist vs mark queue nh := by
  intro vs
  induction vs with
  | nil => intro mark queue nh; rfl
  | cons v rest ih =>
      intro mark queue nh
      simp only [network_scanNeighbours, scanNeighbours]
      cases dlookup mark v with
      | none => rfl
      | some mk =>
          cases mk with
          | notVisited => exact ih _ _ _
          | queued =>
              cases nh with
              | none => exact ih _ _ _
              | some cur =>
                  cases dlookup dist v <;> cases dlookup dist cur <;>
                    simp only [ih]
          | visited =>
              cases nh with
              | none => exact ih _ _ _
              | some cur =>
                  cases dlookup dist v <;> cases dlookup dist cur <;>
                    simp only [ih]

theorem network_dynLoop_eq (adj : List (Nat × List Nat)) :
    ∀ (fuel : Nat) (mark : List (Nat × Mark))
      (dist : List (Nat × WithTop Nat)) (gwMap : List (Nat × Option Nat))
      (queue : List Nat) (routes : List RouteRecord),
      network_dynLoop adj fuel mark dist gwMap queue routes =
        dynLoop adj fuel mark dist gwMap queue routes := by
  intro fuel
  induction fuel with
  | zero =>
      intro mark dist gwMap queue routes
      cases queue with
      | nil => rfl
      | cons node qrest => rfl
  | succ n ih =>
      intro mark dist gwMap queue routes
      cases queue with
      | nil => rfl
      | cons node qrest =>
          simp only [network_dynLoop, dynLoop]
          cases dlookup adj node with
          | none => rfl
          | some nbrs =>
              dsimp only
              rw [network_scanNeighbours_eq]
              cases scanNeighbours dist nbrs mark qrest none with
              | error e => rfl
              | ok out =>
                  obtain ⟨mark', queue', nh⟩ := out
                  cases nh with
                  | none => exact ih _ _ _ _ _
                  | some h =>
                      cases dlookup dist h <;> cases dlookup gwMap h <;>
                        simp only [ih]

/-- C10: the dynamic route builder duplicated in `network.py` is
extensionally equal to the one in `routing.py` — on every topology,
exclusion set and fuel bound they return the same outcome, record for
record and in the same order. -/
theorem c10_duplicate_builders_equal (t : Topology) (ex : List Nat)
    (fuel : Nat) :
    network_build_routes t ex fuel = build_routes t ex fuel := by
  simp only [network_build_routes, build_routes, network_pruneNeigh_eq,
    network_filteredNodes, filteredNodes, network_gatewayAddrs,
    gatewayAddrs]
  cases pruneNeigh ex (neighbours t) with
  | error e => rfl
  | ok adj =>
      simp only [network_seedGateways_eq]
      cases seedGateways adj
          (((t.nodes.filter (fun n => !(ex.contains n.address))).filter
            (fun n => n.type == NodeType.gateway)).map Node.address)
          ((t.nodes.filter (fun n => !(ex.contains n.address))).map (fun n =>
            (n.address,
              if n.type == NodeType.sensor then Mark.notVisited
              else Mark.queued)))
          ((t.nodes.filter (fun n => !(ex.contains n.address))).map
            (fun n => (n.address, (⊤ : WithTop Nat))))
          ((t.nodes.filter (fun n => !(ex.contains n.address))).map
            (fun n => (n.address, (none : Option Nat))))
          [] [] with
      | error e => rfl
      | ok out =>
          obtain ⟨mark1, dist1, gwMap1, queue1, routes1⟩ := out
          simp only [network_dynLoop_eq]

/-! ### `RoutingManager.filter` (claim C6) -/

/-- The exception `RoutingManager.filter` can surface: Python raises
`AttributeError` on access to a missing namedtuple attribute. -/
inductive FilterError where
  | attributeError
deriving DecidableEq

/-- The attribute access `r.hext_hop` of `network.py` line 204.
`RouteRecord` is a namedtuple with fields `source`, `next_hop`, `gateway`,
`distance`, `static`; it has no attribute `hext_hop`, so the access raises
`AttributeError` on every record. -/
def hext_hop_attr : RouteRecord → Except FilterError Nat :=
  fun _ => .error FilterError.attributeError

/-- The `address` comprehension of `RoutingManager.filter` (`network.py`
lines 203–204): `[r for r in records if r.source == target or
r.hext_hop == target]`.  The `or` short-circuits, so `r.hext_hop` is only
evaluated when `r.source != target`. -/
def addressPass (target : Nat) :
    List RouteRecord → Except FilterError (List RouteRecord)
  | [] => .ok []
  | r :: rest =>
      if r.source = target then
        (addressPass target rest).map (fun rs => r :: rs)
      else
        match hext_hop_attr r with
        | .error e => .error e
        | .ok h =>
            if h = target then
              (addressPass target rest).map (fun rs => r :: rs)
            else addressPass target rest

/-- The kwargs record of `RoutingManager.filter`: a field is `none` when
the corresponding keyword argument is absent. -/
structure FilterArgs where
  address : Option Nat
  source : Option Nat
  next_hop : Option Nat
  static : Option Bool
  distance : Option (WithTop Nat)

/-- `RoutingManager.filter` (`network.py` lines 199–216), with the table
given as its list of records in insertion order (`self.all()` without
ordering).  The final `order_by` sort is outside claim C6 and omitted;
every filtering stage is embedded. -/
def managerFilter (table : List RouteRecord) (args : FilterArgs) :
    Except FilterError (List RouteRecord) :=
  let step1 : Except FilterError (List RouteRecord) :=
    match args.address with
    | none => .ok table
    | some target => addressPass target table
  step1.map (fun records =>
    let records := match args.source with
      | none => records
      | some s => records.filter (fun r => r.source == s)
    let records := match args.next_hop with
      | none => records
      | some h => records.filter (fun r => r.next_hop == h)
    let records := match args.static with
      | none => records
      | some b => records.filter (fun r => r.static == b)
    let records := match args.distance with
      | none => records
      | some d => records.filter (fun r => r.distance == d)
    records)

/-- Address filtering as the spec words it (spec-side definition for the
C6 comparison): keep exactly the records whose source or next hop equals
the target, never raising. -/
def specFilterAddress (target : Nat) (table : List RouteRecord) :
    List RouteRecord :=
  table.filter (fun r => r.source == target || r.next_hop == target)

theorem addressPass_error_iff (target : Nat) :
    ∀ table : List RouteRecord,
      addressPass target table = .error FilterError.attributeError ↔
        ∃ r ∈ table, r.source ≠ target := by
  intro table
  induction table with
  | nil => simp [addressPass]
  | cons r rest ih =>
      by_cases hs : r.source = target
      · rw [addressPass, if_pos hs]
        constructor
        · intro h
          cases hrest : addressPass target rest with
          | error e =>
              cases e
              obtain ⟨r', hr', hne⟩ := ih.mp hrest
              exact ⟨r', List.mem_cons_of_mem _ hr', hne⟩
          | ok rs => rw [hrest] at h; exact absurd h (by simp [Except.map])
        · intro h
          obtain ⟨r', hr', hne⟩ := h
          rcases List.mem_cons.mp hr' with he | hm
          · rw [he] at hne; exact absurd hs hne
          · have := ih.mpr ⟨r', hm, hne⟩
            rw [this]; rfl
      · rw [addressPass, if_neg hs]
        simp only [hext_hop_attr]
        exact ⟨fun _ => ⟨r, List.mem_cons_self r rest, hs⟩, fun _ => trivial⟩

/-- C6 (code bug): the `address` filter of `RoutingManager.filter` reads
`r.hext_hop` — a misspelling of `next_hop` that matches no attribute of
`RouteRecord` — so the call raises `AttributeError` exactly when some
record's source differs from the target (while sources match, the `or`
short-circuit hides the typo).  In particular, on the two-record static
table of `wtop` with target 1, the call raises even though the
spec-described result (`specFilterAddress`) is the full table; the claim
that it returns the source-or-next-hop matches and never raises is
refuted. -/
theorem c6_filter_address_raises :
    (∀ (table : List RouteRecord) (target : Nat),
      managerFilter table ⟨some target, none, none, none, none⟩ =
          .error FilterError.attributeError ↔
        ∃ r ∈ table, r.source ≠ target) ∧
    managerFilter wstatRoutes ⟨some 1, none, none, none, none⟩ =
      .error FilterError.attributeError ∧
    specFilterAddress 1 wstatRoutes = wstatRoutes := by
  refine ⟨?_, ?_, rfl⟩
  · intro table target
    simp only [managerFilter]
    constructor
    · intro h
      cases hpass : addressPass target table with
      | error e =>
          cases e
          exact (addressPass_error_iff target table).mp hpass
      | ok rs => rw [hpass] at h; exact absurd h (by simp [Except.map])
    · intro h
      rw [(addressPass_error_iff target table).mpr h]
      rfl
  · rfl

/-! ### The `Network` device model of `network.py` (claims C1 and C9) -/

/-- `network.Device` and its two subclasses: a `Sensor` carries a mutable
`turned_on` flag (`network.py` lines 29–42); a `Gateway` is always on and
has no `turn_off` method (lines 45–51). -/
inductive Device where
  | sensor (isOn : Bool)
  | gateway
deriving DecidableEq

/-- `Device.turned_on` (`Sensor` returns its flag, `Gateway` returns
`True`). -/
def Device.turned_on : Device → Bool
  | Device.sensor b => b
  | Device.gateway => true

/-- The exceptions the `Network` methods can surface: a missing dict key
(`KeyError`), a missing graph edge (`networkx.NetworkXError`), and a
missing method or attribute (`AttributeError`, e.g. `turn_off` on a
`Gateway`). -/
inductive NetError where
  | keyError
  | networkError
  | attributeError
deriving DecidableEq

/-- The mutable state of a `network.Network`: `devices`, `next_hop` (whose
values may be `None`), the directed graph's edge list, and `distance`.
Python mutates these in place; the embedding threads the record through
each step, and an exception carries the state mutated so far. -/
structure Net where
  devices : List (Nat × Device)
  next_hop : List (Nat × Option Nat)
  edges : List (Nat × Nat)
  distance : List (Nat × WithTop Nat)

/-- `Network.__init__` (`network.py` lines 219–228): devices are created
from the topology nodes (`create_device`), `next_hop` and `distance` start
empty, and the graph has no edges. -/
def netInit (t : Topology) : Net :=
  ⟨t.nodes.map (fun n =>
      (n.address,
        if n.type == NodeType.gateway then Device.gateway
        else Device.sensor true)),
    [], [], []⟩

/-- One BFS level of `nx.single_target_shortest_path_length`: the nodes of
`remaining` with an edge into the current frontier.  (`spl[v]` is the
length of a shortest directed path from `v` to the BFS target.) -/
def splNext (edges : List (Nat × Nat)) (frontier remaining : List Nat) :
    List Nat :=
  remaining.filter (fun v => frontier.any (fun u => edges.contains (v, u)))

/-- Level-by-level BFS over reversed edges, emitting `(node, level)` pairs;
`fuel` bounds the level count and the caller passes more levels than the
graph has nodes, which a BFS can never reach. -/
def splLevels (edges : List (Nat × Nat)) :
    Nat → List Nat → List Nat → Nat → List (Nat × Nat)
  | 0, _, _, _ => []
  | _ + 1, [], _, _ => []
  | fuel + 1, frontier, remaining, d =>
      frontier.map (fun v => (v, d)) ++
        splLevels edges fuel (splNext edges frontier remaining)
          (remaining.filter
            (fun v => !(frontier.any (fun u => edges.contains (v, u))))) (d + 1)

/-- `dict(nx.single_target_shortest_path_length(graph, gw))` restricted to
the device addresses (`_update_distances` only ever queries those). -/
def single_target_spl (edges : List (Nat × Nat)) (nodes : List Nat)
    (gw : Nat) : List (Nat × Nat) :=
  splLevels edges (nodes.length + 1) [gw] (nodes.filter (fun v => v ≠ gw)) 0

/-- `Network._update_distances` (`network.py` lines 280–288): reset every
device's distance to `np.inf`, then for each gateway lower it to the
shortest-path length towards that gateway where one exists. -/
def update_distances (net : Net) : Net :=
  let gateways :=
    (net.devices.filter (fun p => p.2 == Device.gateway)).map Prod.fst
  let devs := net.devices.map Prod.fst
  let dist0 : List (Nat × WithTop Nat) := devs.map (fun d => (d, ⊤))
  let dist := gateways.foldl (fun dist gw =>
    let spl := single_target_spl net.edges devs gw
    devs.foldl (fun dist d =>
      match dlookup spl d, dlookup dist d with
      | some s, some cur =>
          if (s : WithTop Nat) < cur then dupdate dist d (s : WithTop Nat)
          else dist
      | _, _ => dist) dist) dist0
  ⟨net.devices, net.next_hop, net.edges, dist⟩

/-- The `for conn in connections:` body of `Network.connect` (`network.py`
lines 245–249): when both endpoint devices are on, set the next hop and add
the graph edge (`nx` ignores an already-present edge). -/
def connLoop : List (Nat × Nat) → Net → Except (NetError × Net) Net
  | [], net => .ok net
  | c :: rest, net =>
      match dlookup net.devices c.1, dlookup net.devices c.2 with
      | some d1, some d2 =>
          if d1.turned_on && d2.turned_on then
            connLoop rest
              ⟨net.devices, dupdate net.next_hop c.1 (some c.2),
                if (c.1, c.2) ∈ net.edges then net.edges
                else net.edges ++ [(c.1, c.2)], net.distance⟩
          else connLoop rest net
      | _, _ => .error (NetError.keyError, net)

/-- `Network.connect` (`network.py` lines 240–250): run the connection
loop, then `_update_distances` — both only when the topology has
connections. -/
def connect (net : Net) (t : Topology) : Except (NetError × Net) Net :=
  match t.connections with
  | [] => .ok net
  | _ :: _ =>
      match connLoop t.connections net with
      | .error e => .error e
      | .ok net' => .ok (update_distances net')

/-- The precursor walk of `Network.turn_off` (`network.py` lines 256–258):
for each node routing through `address`, remove its graph edge and null its
next hop. -/
def precLoop (address : Nat) :
    List Nat → Net → Except (NetError × Net) Net
  | [], net => .ok net
  | fa :: rest, net =>
      if (fa, address) ∈ net.edges then
        precLoop address rest
          ⟨net.devices, dupdate net.next_hop fa none,
            net.edges.erase (fa, address), net.distance⟩
      else .error (NetError.networkError, net)

/-- `Network.turn_off` (`network.py` lines 252–264): walk the `next_hop`
back-pointers (precursors), drop the node's own outgoing edge, null its
next hop, turn the device off and recompute distances.  The unguarded
`self.next_hop[address]` read raises `KeyError` when the address has no
entry, and `turn_off()` on a `Gateway` raises `AttributeError`. -/
def turn_off (net : Net) (address : Nat) : Except (NetError × Net) Net :=
  let precursors :=
    (net.next_hop.filter (fun p => p.2 == some address)).map Prod.fst
  match precLoop address precursors net with
  | .error e => .error e
  | .ok net1 =>
      match dlookup net1.next_hop address with
      | none => .error (NetError.keyError, net1)
      | some nh =>
          match
            ((match nh with
              | some tgt =>
                  if (address, tgt) ∈ net1.edges then
                    .ok (⟨net1.devices, net1.next_hop,
                      net1.edges.erase (address, tgt), net1.distance⟩ : Net)
                  else .error (NetError.networkError, net1)
              | none => .ok net1) : Except (NetError × Net) Net) with
          | .error e => .error e
          | .ok net2 =>
              let net3 : Net :=
                ⟨net2.devices, dupdate net2.next_hop address none,
                  net2.edges, net2.distance⟩
              match dlookup net3.devices address with
              | none => .error (NetError.keyError, net3)
              | some Device.gateway => .error (NetError.attributeError, net3)
              | some (Device.sensor _) =>
                  .ok (update_distances
                    ⟨dupdate net3.devices address (Device.sensor false),
                      net3.next_hop, net3.edges, net3.distance⟩)

/-- Decidable edge consistency: every non-null `next_hop` entry has its
graph edge (the invariant `connect` establishes and `turn_off`
maintains). -/
def EdgeConsistentB (net : Net) : Bool :=
  net.next_hop.all (fun p =>
    match p.2 with
    | some na => net.edges.contains (p.1, na)
    | none => true)

/-- Modelled from the spec: §4.4 describes `turnOff(address)` as marking
the device off and then rebuilding the whole routing table with every
currently-off sensor address excluded (static mode shown); the
`build_routing_table` the spec invokes is absent from the sources, so the
rebuild is `build_static_routes` with that exclusion set. -/
def turnOffSpec (t : Topology) (off : List Nat) (a : Nat) (fuel : Nat) :
    Except BuildError (List RouteRecord) :=
  build_static_routes t (off ++ [a]) fuel

/-- The chain topology 4 → 3 → 2 → G1 used to witness the `turn_off`
claims: one gateway, three sensors, fixed connections only. -/
def chainTop : Topology :=
  ⟨[⟨1, NodeType.gateway⟩, ⟨2, NodeType.sensor⟩, ⟨3, NodeType.sensor⟩,
    ⟨4, NodeType.sensor⟩], [(2, 1), (3, 2), (4, 3)], fun _ _ => false⟩

/-- The network state `connect` produces from `chainTop`. -/
def chainNet : Net :=
  ⟨[(1, Device.gateway), (2, Device.sensor true), (3, Device.sensor true),
      (4, Device.sensor true)],
    [(2, some 1), (3, some 2), (4, some 3)],
    [(2, 1), (3, 2), (4, 3)],
    [(1, 0), (2, 1), (3, 2), (4, 3)]⟩

theorem precLoop_spec (address : Nat) :
    ∀ (pre : List Nat) (net : Net),
      pre.Nodup →
      (∀ fa ∈ pre, (fa, address) ∈ net.edges) →
      ∃ net', precLoop address pre net = .ok net' ∧
        net'.devices = net.devices ∧
        net'.distance = net.distance ∧
        (∀ x, dlookup net'.next_hop x =
          if x ∈ pre then some none else dlookup net.next_hop x) ∧
        (∀ e : Nat × Nat, e.2 ≠ address →
          (e ∈ net'.edges ↔ e ∈ net.edges)) := by
  intro pre
  induction pre with
  | nil =>
      intro net _ _
      exact ⟨net, rfl, rfl, rfl, fun x => by simp, fun e _ => Iff.rfl⟩
  | cons fa rest ih =>
      intro net hnd hedges
      have hfa : (fa, address) ∈ net.edges :=
        hedges fa (List.mem_cons_self _ _)
      have hfarest : fa ∉ rest := (List.nodup_cons.mp hnd).1
      have hrest : ∀ f ∈ rest,
          (f, address) ∈ (net.edges.erase (fa, address)) := by
        intro f hf
        have hne : (f, address) ≠ (fa, address) := by
          intro hcontra
          have : f = fa := congrArg Prod.fst hcontra
          exact hfarest (this ▸ hf)
        exact (List.mem_erase_of_ne hne).mpr
          (hedges f (List.mem_cons_of_mem _ hf))
      obtain ⟨net', hrun, hd, hdist, hnh, hedg⟩ :=
        ih ⟨net.devices, dupdate net.next_hop fa none,
          net.edges.erase (fa, address), net.distance⟩
          (List.nodup_cons.mp hnd).2 hrest
      refine ⟨net', ?_, hd, hdist, ?_, ?_⟩
      · rw [precLoop, if_pos hfa]
        exact hrun
      · intro x
        rw [hnh x]
        by_cases hx : x ∈ rest
        · rw [if_pos hx, if_pos (List.mem_cons_of_mem _ hx)]
        · rw [if_neg hx]
          show dlookup (dupdate net.next_hop fa none) x = _
          rw [dlookup_dupdate]
          by_cases hxfa : x = fa
          · rw [if_pos hxfa, if_pos (hxfa ▸ List.mem_cons_self fa rest)]
          · rw [if_neg hxfa,
              if_neg (by simp [List.mem_cons, hxfa, hx])]
      · intro e he
        rw [hedg e he]
        show e ∈ net.edges.erase (fa, address) ↔ e ∈ net.edges
        exact List.mem_erase_of_ne (by intro hc; exact he (congrArg Prod.snd hc))

theorem mem_precFilter_iff (net : Net) (address x : Nat)
    (hnodup : (net.next_hop.map Prod.fst).Nodup) :
    x ∈ (net.next_hop.filter (fun p => p.2 == some address)).map Prod.fst ↔
      dlookup net.next_hop x = some (some address) := by
  constructor
  · intro hx
    obtain ⟨p, hp, hpx⟩ := List.mem_map.mp hx
    have hpm := (List.mem_filter.mp hp).1
    have hpv : p.2 = some address := by
      have := (List.mem_filter.mp hp).2
      simpa using this
    have hpeq : p = (x, some address) := by
      obtain ⟨p1, p2⟩ := p
      simp only at hpx hpv
      rw [hpx, hpv]
    rw [hpeq] at hpm
    exact dlookup_eq_of_mem_nodup hnodup hpm
  · intro hx
    exact List.mem_map.mpr ⟨(x, some address),
      List.mem_filter.mpr ⟨dlookup_mem hx, by simp⟩, rfl⟩

theorem edgeConsistent_of_B {net : Net} (h : EdgeConsistentB net = true)
    {fa na : Nat} (hfa : (fa, some na) ∈ net.next_hop) :
    (fa, na) ∈ net.edges := by
  have := List.all_eq_true.mp h _ hfa
  simpa [contains_iff_mem] using this

theorem update_distances_devices (net : Net) :
    (update_distances net).devices = net.devices := rfl

theorem update_distances_next_hop (net : Net) :
    (update_distances net).next_hop = net.next_hop := rfl

/-- C1 (corrected): `Network.turn_off` does not rebuild the routing state
with an exclusion set — it patches the existing `next_hop` table in place
by walking the back-pointers.  For a sensor with a `next_hop` entry, on an
edge-consistent network: the call succeeds, only the failed device is
turned off, the failed node's own `next_hop` is nulled, every node that
routed through it has its `next_hop` nulled, and every other node keeps
its old `next_hop` unchanged — even when that hop is now disconnected from
every gateway (the exclusion rebuild of the spec would drop such routes,
see the counterexample). -/
theorem c1_turn_off_pointer_walk (net : Net) (address : Nat)
    (hnodup : (net.next_hop.map Prod.fst).Nodup)
    (hedge : EdgeConsistentB net = true)
    (hdev : ∃ b, dlookup net.devices address = some (Device.sensor b))
    (hhas : ∃ v, dlookup net.next_hop address = some v) :
    ∃ net', turn_off net address = .ok net' ∧
      net'.devices = dupdate net.devices address (Device.sensor false) ∧
      dlookup net'.next_hop address = some none ∧
      (∀ x, x ≠ address →
        dlookup net'.next_hop x =
          if dlookup net.next_hop x = some (some address) then some none
          else dlookup net.next_hop x) := by
  obtain ⟨b, hdev⟩ := hdev
  obtain ⟨v, hv⟩ := hhas
  have hprend :
      ((net.next_hop.filter (fun p => p.2 == some address)).map
        Prod.fst).Nodup :=
    ((List.filter_sublist _).map Prod.fst).nodup hnodup
  have hpreedge : ∀ fa ∈ (net.next_hop.filter
      (fun p => p.2 == some address)).map Prod.fst,
      (fa, address) ∈ net.edges := by
    intro fa hfa
    exact edgeConsistent_of_B hedge
      (dlookup_mem ((mem_precFilter_iff net address fa hnodup).mp hfa))
  obtain ⟨net1, hrun, hd1, hdist1, hnh1, hedg1⟩ :=
    precLoop_spec address
      ((net.next_hop.filter (fun p => p.2 == some address)).map Prod.fst)
      net hprend hpreedge
  have hdev1 : dlookup net1.devices address = some (Device.sensor b) := by
    rw [hd1]; exact hdev
  have tail : ∀ (E : List (Nat × Nat)) (D : List (Nat × WithTop Nat)),
      (update_distances ⟨dupdate net1.devices address (Device.sensor false),
        dupdate net1.next_hop address none, E, D⟩).devices =
          dupdate net.devices address (Device.sensor false) ∧
      dlookup (update_distances ⟨dupdate net1.devices address
        (Device.sensor false), dupdate net1.next_hop address none, E,
          D⟩).next_hop address = some none ∧
      (∀ x, x ≠ address →
        dlookup (update_distances ⟨dupdate net1.devices address
          (Device.sensor false), dupdate net1.next_hop address none, E,
            D⟩).next_hop x =
          if dlookup net.next_hop x = some (some address) then some none
          else dlookup net.next_hop x) := by
    intro E D
    refine ⟨?_, ?_, ?_⟩
    · rw [update_distances_devices]
      show dupdate net1.devices address (Device.sensor false) = _
      rw [hd1]
    · rw [update_distances_next_hop]
      show dlookup (dupdate net1.next_hop address none) address = some none
      rw [dlookup_dupdate, if_pos rfl]
    · intro x hx
      rw [update_distances_next_hop]
      show dlookup (dupdate net1.next_hop address none) x = _
      rw [dlookup_dupdate, if_neg hx, hnh1 x]
      by_cases hxp : dlookup net.next_hop x = some (some address)
      · rw [if_pos ((mem_precFilter_iff net address x hnodup).mpr hxp),
          if_pos hxp]
      · rw [if_neg (fun hmem =>
            hxp ((mem_precFilter_iff net address x hnodup).mp hmem)),
          if_neg hxp]
  by_cases haddr : address ∈ (net.next_hop.filter
      (fun p => p.2 == some address)).map Prod.fst
  · have hla : dlookup net1.next_hop address = some none := by
      rw [hnh1 address, if_pos haddr]
    have hto : turn_off net address = .ok (update_distances
        ⟨dupdate net1.devices address (Device.sensor false),
          dupdate net1.next_hop address none, net1.edges,
          net1.distance⟩) := by
      simp only [turn_off]
      rw [hrun]
      dsimp only
      rw [hla]
      dsimp only
      rw [hdev1]
    exact ⟨_, hto, tail _ _⟩
  · have hla : dlookup net1.next_hop address = some v := by
      rw [hnh1 address, if_neg haddr]; exact hv
    cases v with
    | none =>
        have hto : turn_off net address = .ok (update_distances
            ⟨dupdate net1.devices address (Device.sensor false),
              dupdate net1.next_hop address none, net1.edges,
              net1.distance⟩) := by
          simp only [turn_off]
          rw [hrun]
          dsimp only
          rw [hla]
          dsimp only
          rw [hdev1]
        exact ⟨_, hto, tail _ _⟩
    | some tgt =>
        have htgtne : ((address, tgt) : Nat × Nat).2 ≠ address := by
          intro hc
          have hc' : tgt = address := hc
          exact haddr ((mem_precFilter_iff net address address hnodup).mpr
            (by rw [hv, hc']))
        have hedge2 : (address, tgt) ∈ net1.edges :=
          (hedg1 (address, tgt) htgtne).mpr
            (edgeConsistent_of_B hedge (dlookup_mem hv))
        have hto : turn_off net address = .ok (update_distances
            ⟨dupdate net1.devices address (Device.sensor false),
              dupdate net1.next_hop address none,
              net1.edges.erase (address, tgt), net1.distance⟩) := by
          simp only [turn_off]
          rw [hrun]
          dsimp only
          rw [hla]
          dsimp only
          rw [if_pos hedge2]
          dsimp only
          rw [hdev1]
        exact ⟨_, hto, tail _ _⟩

/-- Witness for the amended C1 on the concrete chain network. -/
theorem c1_turn_off_pointer_walk_witness :
    ∃ net', turn_off chainNet 2 = .ok net' ∧
      net'.devices = dupdate chainNet.devices 2 (Device.sensor false) ∧
      dlookup net'.next_hop 2 = some none ∧
      (∀ x, x ≠ 2 →
        dlookup net'.next_hop x =
          if dlookup chainNet.next_hop x = some (some 2) then some none
          else dlookup chainNet.next_hop x) :=
  c1_turn_off_pointer_walk chainNet 2 (by decide) (by decide)
    ⟨true, rfl⟩ ⟨some 1, rfl⟩

/-- The state of the chain network after `turn_off 2`. -/
def chainNetOff : Net :=
  ⟨[(1, Device.gateway), (2, Device.sensor false), (3, Device.sensor true),
      (4, Device.sensor true)],
    [(2, none), (3, none), (4, some 3)],
    [(4, 3)],
    [(1, 0), (2, ⊤), (3, ⊤), (4, ⊤)]⟩

/-- C1 counterexample: on the chain 4 → 3 → 2 → G1, after `turn_off 2` the
code keeps node 4's stale hop `next_hop[4] = 3` and merely nulls nodes 2
and 3, while the §4.4 exclusion rebuild (`turnOffSpec`, static mode)
returns only the gateway self-record — nodes 3 and 4 receive no route at
all.  `turn_off` is therefore not the mark-off-and-rebuild the claim
describes. -/
theorem c1_counterexample :
    connect (netInit chainTop) chainTop = .ok chainNet ∧
    turn_off chainNet 2 = .ok chainNetOff ∧
    dlookup chainNetOff.next_hop 4 = some (some 3) ∧
    dlookup chainNetOff.next_hop 3 = some none ∧
    turnOffSpec chainTop [] 2 9 = .ok [⟨1, 1, some 1, 0, true⟩] ∧
    ¬ ∃ r ∈ [(⟨1, 1, some 1, 0, true⟩ : RouteRecord)], r.source = 4 :=
  ⟨rfl, rfl, rfl, rfl, rfl, by decide⟩

/-- C9 (confirmed): `turn_off` reads `next_hop[address]` unconditionally,
so on an edge-consistent network whose `next_hop` mapping has no entry for
the address — any node with no outgoing fixed connection, or any network
before `connect` has run — the call raises `KeyError` and the device is
not marked off. -/
theorem c9_turn_off_missing_key (net : Net) (address : Nat)
    (hnodup : (net.next_hop.map Prod.fst).Nodup)
    (hedge : EdgeConsistentB net = true)
    (hmiss : dlookup net.next_hop address = none) :
    ∃ net', turn_off net address = .error (NetError.keyError, net') ∧
      net'.devices = net.devices := by
  have hprend :
      ((net.next_hop.filter (fun p => p.2 == some address)).map
        Prod.fst).Nodup :=
    ((List.filter_sublist _).map Prod.fst).nodup hnodup
  have hpreedge : ∀ fa ∈ (net.next_hop.filter
      (fun p => p.2 == some address)).map Prod.fst,
      (fa, address) ∈ net.edges := by
    intro fa hfa
    exact edgeConsistent_of_B hedge
      (dlookup_mem ((mem_precFilter_iff net address fa hnodup).mp hfa))
  obtain ⟨net1, hrun, hd1, _, hnh1, _⟩ :=
    precLoop_spec address
      ((net.next_hop.filter (fun p => p.2 == some address)).map Prod.fst)
      net hprend hpreedge
  have haddr : address ∉ (net.next_hop.filter
      (fun p => p.2 == some address)).map Prod.fst := by
    intro hmem
    have hl := (mem_precFilter_iff net address address hnodup).mp hmem
    rw [hl] at hmiss
    simp at hmiss
  have hla : dlookup net1.next_hop address = none := by
    rw [hnh1 address, if_neg haddr]
    exact hmiss
  refine ⟨net1, ?_, hd1⟩
  simp only [turn_off]
  rw [hrun]
  dsimp only
  rw [hla]

/-- Witness for C9: turning node 2 off before `connect` (empty `next_hop`)
raises `KeyError`, all devices still on. -/
theorem c9_turn_off_missing_key_witness :
    ∃ net', turn_off (netInit chainTop) 2 =
        .error (NetError.keyError, net') ∧
      net'.devices = (netInit chainTop).devices :=
  c9_turn_off_missing_key (netInit chainTop) 2 (by decide) (by decide) rfl

/-! ### The failure/repair scheduler of `simulation.py` (claim C7) -/

/-- The scheduler-visible state of `ModelData`: the `repair_started` flag,
the `failed_nodes` list, and the number of `handle_repair_finished` events
currently scheduled and not yet fired (the simulator's event queue,
restricted to repair events). -/
structure SState where
  repair_started : Bool
  failed_nodes : List Nat
  outstandingRepairs : Nat
deriving DecidableEq

/-- `ModelData.__init__` (`simulation.py` lines 46–73): `repair_started`
false, no failed nodes, no repair event scheduled (only failures are). -/
def initState : SState := ⟨false, [], 0⟩

/-- One event firing of the `ModelData` scheduler.  `handle_failure`
(`simulation.py` lines 75–106) appends the node and calls
`schedule_next_repair` only when the offline threshold is met AND
`repair_started` is false (the threshold depends on network state the
model leaves nondeterministic, hence two constructors);
`schedule_next_repair` (lines 148–167) schedules exactly one
`handle_repair_finished` and leaves `repair_started` true.
`handle_repair_finished` (lines 108–138) consumes its event, removes the
node, and either schedules exactly one further repair (failed nodes
remain) or clears the flag. -/
inductive Step : SState → SState → Prop where
  | failStart (s : SState) (n : Nat) (h : s.repair_started = false) :
      Step s ⟨true, s.failed_nodes ++ [n], s.outstandingRepairs + 1⟩
  | failSkip (s : SState) (n : Nat) :
      Step s ⟨s.repair_started, s.failed_nodes ++ [n],
        s.outstandingRepairs⟩
  | repairFinMore (s : SState) (n : Nat) (h : n ∈ s.failed_nodes)
      (hmore : s.failed_nodes.erase n ≠ [])
      (hout : 0 < s.outstandingRepairs) :
      Step s ⟨true, s.failed_nodes.erase n,
        s.outstandingRepairs - 1 + 1⟩
  | repairFinDone (s : SState) (n : Nat) (h : n ∈ s.failed_nodes)
      (hdone : s.failed_nodes.erase n = [])
      (hout : 0 < s.outstandingRepairs) :
      Step s ⟨false, s.failed_nodes.erase n, s.outstandingRepairs - 1⟩

/-- C7: in every scheduler state reachable from the initial one, at most
one `handle_repair_finished` event is outstanding — exactly one while
`repair_started` is true and none otherwise — so repairs are strictly
serialized. -/
theorem step_inv {a b : SState} (hstep : Step a b)
    (ih : a.outstandingRepairs = (if a.repair_started then 1 else 0)) :
    b.outstandingRepairs = (if b.repair_started then 1 else 0) := by
  cases hstep with
  | failStart n hf =>
      rw [hf] at ih
      simp only [if_neg Bool.false_ne_true] at ih
      simp [ih]
  | failSkip n => exact ih
  | repairFinMore n hmem hmore hout =>
      cases hsr : a.repair_started with
      | false => rw [hsr] at ih; simp at ih; exfalso; omega
      | true => rw [hsr] at ih; simp at ih; simp; omega
  | repairFinDone n hmem hdone hout =>
      cases hsr : a.repair_started with
      | false => rw [hsr] at ih; simp at ih; exfalso; omega
      | true => rw [hsr] at ih; simp at ih; simp; omega

theorem c7_repairs_serialized (s : SState)
    (h : Relation.ReflTransGen Step initState s) :
    s.outstandingRepairs ≤ 1 ∧
    s.outstandingRepairs = (if s.repair_started then 1 else 0) := by
  have inv : ∀ u : SState, Relation.ReflTransGen Step initState u →
      u.outstandingRepairs = (if u.repair_started then 1 else 0) := by
    intro u hu
    induction hu with
    | refl => rfl
    | tail hab hbc ih => exact step_inv hbc ih
  have hinv := inv s h
  refine ⟨?_, hinv⟩
  rw [hinv]
  cases s.repair_started <;> simp

/-- Witness for C7 at the state reached by one failure that starts a
repair. -/
theorem c7_repairs_serialized_witness :
    (⟨true, [5], 1⟩ : SState).outstandingRepairs ≤ 1 ∧
    (⟨true, [5], 1⟩ : SState).outstandingRepairs =
      (if (⟨true, [5], 1⟩ : SState).repair_started then 1 else 0) :=
  c7_repairs_serialized ⟨true, [5], 1⟩
    (Relation.ReflTransGen.single (Step.failStart initState 5 rfl))

/-! ### PMF averaging of `simulation.py` (claim C8) -/

/-- Indexing with default 0, as numpy arrays read in these functions. -/
def nth (l : List ℚ) (k : Nat) : ℚ :=
  l.getD k 0

/-- `pmf_to_array` (`simulation.py` lines 14–21): an empty PMF maps to the
empty array; otherwise allocate `max(pmf.keys()) + 1` zeros and write each
`(key, value)` pair at its key. -/
def pmf_to_array (pmf : List (Nat × ℚ)) : List ℚ :=
  match pmf with
  | [] => []
  | _ :: _ =>
      pmf.foldl (fun result p => result.set p.1 p.2)
        (List.replicate (((pmf.map Prod.fst).foldl max 0) + 1) 0)

/-- `average_pmfs` (`simulation.py` lines 24–31): raise `ValueError` on an
empty input; otherwise convert each PMF to an array, zero-pad every array
to the longest one, and return their element-wise sum divided by the
number of inputs. -/
def average_pmfs (pmfs : List (List (Nat × ℚ))) :
    Except BuildError (List ℚ) :=
  match pmfs with
  | [] => .error BuildError.valueError
  | _ :: _ =>
      let vectors := pmfs.map pmf_to_array
      let max_order := (vectors.map List.length).foldl max 0
      let num := vectors.length
      let padded := vectors.map
        (fun v => v ++ List.replicate (max_order - v.length) 0)
      .ok ((padded.foldl (fun acc v => List.zipWith (· + ·) acc v)
        (List.replicate max_order 0)).map (fun x => x / (num : ℚ)))

/-- The support bound of a PMF as the spec words it: one past the largest
key, 0 for an empty PMF. -/
def supportBound (pmf : List (Nat × ℚ)) : Nat :=
  match pmf with
  | [] => 0
  | _ :: _ => ((pmf.map Prod.fst).foldl max 0) + 1

theorem foldl_max_le_init (l : List Nat) : ∀ a : Nat, a ≤ l.foldl max a := by
  induction l with
  | nil => intro a; simp
  | cons x xs ih =>
      intro a
      exact le_trans (Nat.le_max_left a x) (ih (max a x))

theorem mem_le_foldl_max (l : List Nat) :
    ∀ a, ∀ x ∈ l, x ≤ l.foldl max a := by
  induction l with
  | nil => simp
  | cons y ys ih =>
      intro a x hx
      rcases List.mem_cons.mp hx with h | h
      · subst h
        exact le_trans (Nat.le_max_right a x) (foldl_max_le_init ys _)
      · exact ih _ x h

theorem length_foldl_set (ps : List (Nat × ℚ)) :
    ∀ acc : List ℚ,
      (ps.foldl (fun r p => r.set p.1 p.2) acc).length = acc.length := by
  induction ps with
  | nil => intro acc; rfl
  | cons p rest ih =>
      intro acc
      rw [List.foldl_cons, ih]
      exact List.length_set acc p.1 p.2

theorem nth_replicate (m k : Nat) : nth (List.replicate m (0 : ℚ)) k = 0 := by
  induction m generalizing k with
  | zero => cases k <;> rfl
  | succ n ih =>
      cases k with
      | zero => rfl
      | succ j => exact ih j

theorem pmf_to_array_length (pmf : List (Nat × ℚ)) :
    (pmf_to_array pmf).length = supportBound pmf := by
  cases pmf with
  | nil => rfl
  | cons p rest =>
      have he : pmf_to_array (p :: rest) =
          (p :: rest).foldl (fun r q => r.set q.1 q.2)
            (List.replicate ((((p :: rest).map Prod.fst).foldl max 0) + 1)
              (0 : ℚ)) := rfl
      rw [he, length_foldl_set, List.length_replicate]
      rfl

theorem foldl_set_get (ps : List (Nat × ℚ)) :
    ∀ acc : List ℚ, (ps.map Prod.fst).Nodup →
      ∀ k, k < acc.length →
        nth (ps.foldl (fun r p => r.set p.1 p.2) acc) k =
          (dlookup ps k).getD (nth acc k) := by
  induction ps with
  | nil => intro acc _ k _; simp [dlookup]
  | cons p rest ih =>
      intro acc hnd k hk
      rw [List.foldl_cons]
      rw [List.map_cons] at hnd
      have hlen : (acc.set p.1 p.2).length = acc.length :=
        List.length_set acc p.1 p.2
      rw [ih (acc.set p.1 p.2) hnd.of_cons k (hlen ▸ hk)]
      by_cases hkp : p.1 = k
      · have hnone : dlookup rest k = none := by
          cases hrest : dlookup rest k with
          | none => rfl
          | some v =>
              exfalso
              have hmem := dlookup_mem hrest
              have hkm : k ∈ rest.map Prod.fst :=
                List.mem_map.mpr ⟨(k, v), hmem, rfl⟩
              have hnotin := (List.nodup_cons.mp hnd).1
              rw [hkp] at hnotin
              exact hnotin hkm
        rw [hnone]
        simp only [dlookup, if_pos hkp, Option.getD_none, Option.getD_some]
        show nth (acc.set p.1 p.2) k = p.2
        rw [hkp]
        show (acc.set k p.2).getD k 0 = p.2
        rw [List.getD_eq_getElem _ _ (by rw [List.length_set]; exact hk)]
        exact List.getElem_set_self _
      · simp only [dlookup, if_neg hkp]
        have hnth : nth (acc.set p.1 p.2) k = nth acc k := by
          show (acc.set p.1 p.2).getD k 0 = acc.getD k 0
          rw [List.getD_eq_getElem _ _ (by rw [List.length_set]; exact hk),
            List.getD_eq_getElem _ _ hk]
          exact List.getElem_set_ne hkp _
        rw [hnth]

theorem pmf_to_array_get (pmf : List (Nat × ℚ))
    (hnd : (pmf.map Prod.fst).Nodup) (k : Nat) :
    nth (pmf_to_array pmf) k = (dlookup pmf k).getD 0 := by
  cases hp : pmf with
  | nil => simp [pmf_to_array, nth, dlookup]
  | cons p rest =>
      subst hp
      by_cases hk : k < ((pmf_to_array (p :: rest)).length)
      · rw [pmf_to_array_length] at hk
        have hk' : k < (List.replicate
            ((((p :: rest).map Prod.fst).foldl max 0) + 1) (0 : ℚ)).length := by
          rw [List.length_replicate]
          exact hk
        show nth ((p :: rest).foldl (fun r q => r.set q.1 q.2) _) k = _
        rw [foldl_set_get (p :: rest) _ hnd k hk', nth_replicate]
      · have hge : (pmf_to_array (p :: rest)).length ≤ k := Nat.le_of_not_lt hk
        have h1 : nth (pmf_to_array (p :: rest)) k = 0 := by
          show (pmf_to_array (p :: rest)).getD k 0 = 0
          exact List.getD_eq_default _ _ hge
        rw [pmf_to_array_length] at hge
        have h2 : dlookup (p :: rest) k = none := by
          cases hl : dlookup (p :: rest) k with
          | none => rfl
          | some v =>
              exfalso
              have hmem := dlookup_mem hl
              have hkmem : k ∈ (p :: rest).map Prod.fst :=
                List.mem_map.mpr ⟨(k, v), hmem, rfl⟩
              have := mem_le_foldl_max ((p :: rest).map Prod.fst) 0 k hkmem
              have hlt : k < (((p :: rest).map Prod.fst).foldl max 0) + 1 :=
                Nat.lt_succ_of_le this
              exact absurd hlt (by simpa [supportBound] using Nat.not_lt.mpr hge)
        rw [h1, h2]
        rfl

theorem nth_zipWith_add :
    ∀ (a v : List ℚ), v.length = a.length →
      ∀ k, k < a.length →
        nth (List.zipWith (· + ·) a v) k = nth a k + nth v k := by
  intro a
  induction a with
  | nil => intro v _ k hk; exact absurd hk (by simp)
  | cons x xs ih =>
      intro v hv k hk
      cases v with
      | nil => exact absurd hv (by simp)
      | cons y ys =>
          cases k with
          | zero => rfl
          | succ j =>
              have hv' : ys.length = xs.length := by simpa using hv
              have hk' : j < xs.length := by simpa using hk
              exact ih ys hv' j hk'

theorem length_zipWith_add (a v : List ℚ) (h : v.length = a.length) :
    (List.zipWith (· + ·) a v).length = a.length := by
  rw [List.length_zipWith, h, Nat.min_self]

theorem foldl_zipWith_sum (n : Nat) :
    ∀ (vs : List (List ℚ)) (acc : List ℚ), acc.length = n →
      (∀ v ∈ vs, v.length = n) →
      (vs.foldl (fun a v => List.zipWith (· + ·) a v) acc).length = n ∧
      ∀ k, k < n →
        nth (vs.foldl (fun a v => List.zipWith (· + ·) a v) acc) k =
          nth acc k + (vs.map (fun v => nth v k)).sum := by
  intro vs
  induction vs with
  | nil =>
      intro acc hacc _
      exact ⟨hacc, fun k _ => by simp⟩
  | cons v rest ih =>
      intro acc hacc hlens
      have hv : v.length = n := hlens v (List.mem_cons_self _ _)
      have hzlen : (List.zipWith (· + ·) acc v).length = n := by
        rw [length_zipWith_add acc v (by rw [hv, hacc])]
        exact hacc
      obtain ⟨hl, hval⟩ := ih (List.zipWith (· + ·) acc v) hzlen
        (fun w hw => hlens w (List.mem_cons_of_mem _ hw))
      refine ⟨by rw [List.foldl_cons]; exact hl, ?_⟩
      intro k hk
      rw [List.foldl_cons, hval k hk,
        nth_zipWith_add acc v (by rw [hv, hacc]) k (by rw [hacc]; exact hk)]
      simp [add_assoc]

theorem nth_append_replicate (v : List ℚ) (m k : Nat) :
    nth (v ++ List.replicate m (0 : ℚ)) k = nth v k := by
  induction v generalizing k with
  | nil => simp [nth_replicate, nth]
  | cons x xs ih =>
      cases k with
      | zero => rfl
      | succ j => exact ih j

theorem nth_map_div (l : List ℚ) (c : ℚ) :
    ∀ k, k < l.length →
      nth (l.map (fun x => x / c)) k = nth l k / c := by
  induction l with
  | nil => intro k hk; exact absurd hk (by simp)
  | cons x xs ih =>
      intro k hk
      cases k with
      | zero => rfl
      | succ j => exact ih j (by simpa using hk)

/-- C8: `average_pmfs` raises `ValueError` exactly on the empty input; on
a non-empty input (each PMF keyed by distinct non-negative integers) it
returns a vector whose length is the largest support bound among the
inputs (`supportBound`: one past the largest key, 0 for an empty PMF) and
whose k-th entry is the arithmetic mean over all inputs of the weight at
key k, a PMF in which k is absent contributing 0. -/
theorem c8_average_pmfs (pmfs : List (List (Nat × ℚ)))
    (hnd : ∀ pmf ∈ pmfs, (pmf.map Prod.fst).Nodup) :
    (average_pmfs pmfs = .error BuildError.valueError ↔ pmfs = []) ∧
    (∀ out, average_pmfs pmfs = .ok out →
      out.length = (pmfs.map supportBound).foldl max 0 ∧
      ∀ k, k < out.length →
        nth out k =
          (pmfs.map (fun pmf => (dlookup pmf k).getD 0)).sum /
            (pmfs.length : ℚ)) := by
  constructor
  · cases pmfs with
    | nil => simp [average_pmfs]
    | cons p rest => simp [average_pmfs]
  · intro out hout
    cases pmfs with
    | nil => simp [average_pmfs] at hout
    | cons p rest =>
        have hlen_le : ∀ v ∈ (p :: rest).map pmf_to_array,
            v.length ≤
              ((((p :: rest).map pmf_to_array).map List.length).foldl
                max 0) := by
          intro v hv
          exact mem_le_foldl_max _ 0 v.length (List.mem_map.mpr ⟨v, hv, rfl⟩)
        have hpadlen : ∀ w ∈ ((p :: rest).map pmf_to_array).map
            (fun v => v ++ List.replicate
              (((((p :: rest).map pmf_to_array).map List.length).foldl
                max 0) - v.length) 0),
            w.length =
              ((((p :: rest).map pmf_to_array).map List.length).foldl
                max 0) := by
          intro w hw
          obtain ⟨v, hv, rfl⟩ := List.mem_map.mp hw
          rw [List.length_append, List.length_replicate]
          exact Nat.add_sub_cancel' (hlen_le v hv)
        obtain ⟨hslen, hsval⟩ := foldl_zipWith_sum
          ((((p :: rest).map pmf_to_array).map List.length).foldl max 0)
          (((p :: rest).map pmf_to_array).map (fun v => v ++ List.replicate
            (((((p :: rest).map pmf_to_array).map List.length).foldl max 0)
              - v.length) 0))
          (List.replicate ((((p :: rest).map pmf_to_array).map
            List.length).foldl max 0) 0)
          (List.length_replicate _ _) hpadlen
        have hE : average_pmfs (p :: rest) = .ok ((
            (((p :: rest).map pmf_to_array).map (fun v => v ++ List.replicate
              (((((p :: rest).map pmf_to_array).map List.length).foldl max 0)
                - v.length) 0)).foldl (fun acc v => List.zipWith (· + ·) acc v)
              (List.replicate ((((p :: rest).map pmf_to_array).map
                List.length).foldl max 0) 0)).map
            (fun x => x / ((((p :: rest).map pmf_to_array).length : Nat) :
              ℚ))) := rfl
        rw [hE] at hout
        injection hout with hEq
        subst hEq
        constructor
        · rw [List.length_map, hslen]
          have hmap : ((p :: rest).map pmf_to_array).map List.length =
              (p :: rest).map supportBound := by
            rw [List.map_map]
            exact List.map_congr_left (fun pmf _ => pmf_to_array_length pmf)
          rw [hmap]
        · intro k hk
          rw [List.length_map, hslen] at hk
          rw [nth_map_div _ _ k (by rw [hslen]; exact hk)]
          rw [hsval k hk, nth_replicate, zero_add]
          have hmapeq : (((p :: rest).map pmf_to_array).map (fun v =>
              v ++ List.replicate
                (((((p :: rest).map pmf_to_array).map List.length).foldl
                  max 0) - v.length) 0)).map (fun v => nth v k) =
              (p :: rest).map (fun pmf => (dlookup pmf k).getD 0) := by
            rw [List.map_map, List.map_map]
            exact List.map_congr_left (fun pmf hp => by
              show nth (pmf_to_array pmf ++ List.replicate _ 0) k = _
              rw [nth_append_replicate]
              exact pmf_to_array_get pmf (hnd pmf hp) k)
          rw [hmapeq, List.length_map]

/-- The concrete PMF pair used to witness C8. -/
def wpmfs : List (List (Nat × ℚ)) :=
  [[(0, 1/2), (2, 1/2)], [(1, 1)]]

/-- Witness for C8 on two concrete PMFs of different support. -/
theorem c8_average_pmfs_witness :
    (average_pmfs wpmfs = .error BuildError.valueError ↔ wpmfs = []) ∧
    (∀ out, average_pmfs wpmfs = .ok out →
      out.length = (wpmfs.map supportBound).foldl max 0 ∧
      ∀ k, k < out.length →
        nth out k =
          (wpmfs.map (fun pmf => (dlookup pmf k).getD 0)).sum /
            (wpmfs.length : ℚ)) :=
  c8_average_pmfs wpmfs (by decide)
